import Mathlib

/-!
# FrameReader — verification of the job store, scheduler and pipeline orchestrator

Shallow embedding of the core of the `framereader` repository:

* `jobStore.ts` — the in-memory job registry (a JS `Map` keyed by `jobId`,
  iterated in insertion order), modelled as a `List Job` in insertion order.
  A JS `Map` never holds two entries with the same key; stores produced by
  the real code therefore satisfy `WellFormed` (no duplicate `jobId`s),
  which appears as a hypothesis where a theorem needs it.
* `queueManager.ts` — admission / bounded-concurrency scheduler
  (`tryStartNext`, `onJobComplete`, `cancelJob`, `canEnqueue`).
  The registered process callback is fire-and-forget: the scheduler does not
  await it, so its invocation is recorded as data (the started job id)
  rather than executed.
* `pipelineOrchestrator.ts` — `processJob`, driving one job through
  download → (transcription ∥ visual) → assembly.  Every external
  collaborator call (`downloadVideo`, `extractAudio`, `sampleFrames`,
  `transcribeAudio`, `analyzeFrames`, `assembleScript`) is a suspension
  point whose outcome is supplied by an explicit environment `Env`;
  `Date.now()` and the current date string are likewise inputs.
* `scriptAssembler.ts` — the deterministic fallback `formatBasicScript`.

JS quirks that matter are kept: `Map.set` on an existing key updates the
entry in place (keeping its position), `Array.prototype.sort` is stable,
and `now - createdAt > JOB_EXPIRY_MS` uses a strict comparison.
-/

namespace FrameReader

/-- `Platform` from `shared/types.ts`. -/
inductive Platform
  | youtube | tiktok | instagram | vimeo | upload | unknown
  deriving DecidableEq, Repr

/-- `JobStatus` from `shared/types.ts`. -/
inductive JobStatus
  | queued | processing | complete | error | cancelled
  deriving DecidableEq, Repr

/-- `StageStatus` from `shared/types.ts`. -/
inductive StageStatus
  | pending | in_progress | complete | skipped | error
  deriving DecidableEq, Repr

/-- The four pipeline stages (`keyof Job["stages"]`). -/
inductive StageName
  | download | transcription | visual | assembly
  deriving DecidableEq, Repr

/-- The per-stage status record `Job.stages`. -/
structure Stages where
  download : StageStatus
  transcription : StageStatus
  visual : StageStatus
  assembly : StageStatus
  deriving DecidableEq, Repr

/-- `DialogueEntry` from `shared/types.ts` (times in milliseconds). -/
structure DialogueEntry where
  speaker : String
  text : String
  startTime : Nat
  endTime : Nat
  deriving DecidableEq, Repr

/-- Confidence tag of an `ActionEntry`. -/
inductive Confidence
  | high | uncertain
  deriving DecidableEq, Repr

/-- `ActionEntry` from `shared/types.ts`. -/
structure ActionEntry where
  timestamp : Nat
  action : String
  characters : List String
  onScreenText : Option String
  significantProps : Option (List String)
  cameraNotes : Option String
  confidence : Confidence
  deriving DecidableEq, Repr

/-- `Scene` from `shared/types.ts`. -/
structure Scene where
  sceneNumber : Nat
  startTime : Nat
  endTime : Nat
  heading : String
  description : String
  deriving DecidableEq, Repr

/-- `Job.metadata` (as written by `setJobMetadata` in the orchestrator:
`title` and `duration` are always present, `sourceUrl` is the nullable
`job.videoUrl`). -/
structure Metadata where
  title : String
  duration : Nat
  sourceUrl : Option String
  deriving DecidableEq, Repr

/-- `Job.transcription`. -/
structure Transcription where
  dialogueEntries : List DialogueEntry
  speakers : List String
  deriving DecidableEq, Repr

/-- `Job.visualAnalysis`. -/
structure VisualAnalysis where
  actionEntries : List ActionEntry
  characters : List String
  scenes : List Scene
  deriving DecidableEq, Repr

/-- `Job.error` — the top-level error record. -/
structure JobError where
  stage : String
  message : String
  userMessage : String
  deriving DecidableEq, Repr

/-- `Job` from `shared/types.ts`.  `stageErrors` is the per-stage error map
written by `setJobStageError` (see that definition's comment). -/
structure Job where
  jobId : String
  videoUrl : Option String
  filePath : Option String
  platform : Platform
  status : JobStatus
  stages : Stages
  metadata : Option Metadata
  transcription : Option Transcription
  visualAnalysis : Option VisualAnalysis
  script : Option String
  error : Option JobError
  stageErrors : List (String × String)
  createdAt : Nat
  completedAt : Option Nat
  deriving DecidableEq, Repr

/-- The `jobs` map of `jobStore.ts`, as its list of values in insertion
order (JS `Map` iteration order). -/
abbrev Store := List Job

/-- A JS `Map` keyed by `jobId` never holds two entries with the same key. -/
def WellFormed (st : Store) : Prop :=
  (st.map Job.jobId).Nodup

instance : DecidablePred WellFormed := fun st =>
  inferInstanceAs (Decidable ((st.map Job.jobId).Nodup))

/-- `jobs.set(jobId, job)`: update in place if the key exists (keeping the
entry's position), else append. -/
def storeSet (j : Job) (st : Store) : Store :=
  if st.any (fun k => k.jobId = j.jobId) then
    st.map (fun k => if k.jobId = j.jobId then j else k)
  else
    st ++ [j]

/-- `createJob` (`jobStore.ts`).  The generated UUID and `Date.now()` are
explicit inputs `jobId` and `now`.  Returns the created job and the new
store. -/
def createJob (platform : Platform) (videoUrl filePath : Option String)
    (jobId : String) (now : Nat) (st : Store) : Job × Store :=
  let job : Job :=
    { jobId := jobId
      videoUrl := videoUrl
      filePath := filePath
      platform := platform
      status := .queued
      stages :=
        { download := if filePath.isSome then .skipped else .pending
          transcription := .pending
          visual := .pending
          assembly := .pending }
      metadata := none
      transcription := none
      visualAnalysis := none
      script := none
      error := none
      stageErrors := []
      createdAt := now
      completedAt := none }
  (job, storeSet job st)

/-- `getJob` (`jobStore.ts`): `jobs.get(jobId)`; on a list in insertion
order this is the first entry with the key. -/
def getJob (jobId : String) (st : Store) : Option Job :=
  st.find? (fun j => j.jobId = jobId)

/-- `updateJobStatus` (`jobStore.ts`): no-op on an unknown id; sets
`status`, and sets `completedAt := Date.now()` exactly when the new status
is `complete` or `error`. -/
def updateJobStatus (jobId : String) (status : JobStatus) (now : Nat)
    (st : Store) : Store :=
  st.map (fun j =>
    if j.jobId = jobId then
      { j with
        status := status
        completedAt :=
          if status = .complete ∨ status = .error then some now
          else j.completedAt }
    else j)

/-- Write one field of the stage map. -/
def Stages.set (s : Stages) (stage : StageName) (v : StageStatus) : Stages :=
  match stage with
  | .download => { s with download := v }
  | .transcription => { s with transcription := v }
  | .visual => { s with visual := v }
  | .assembly => { s with assembly := v }

/-- `updateJobStage` (`jobStore.ts`): no-op on an unknown id. -/
def updateJobStage (jobId : String) (stage : StageName) (v : StageStatus)
    (st : Store) : Store :=
  st.map (fun j =>
    if j.jobId = jobId then { j with stages := j.stages.set stage v } else j)

/-- `setJobMetadata` (`jobStore.ts`). -/
def setJobMetadata (jobId : String) (m : Metadata) (st : Store) : Store :=
  st.map (fun j => if j.jobId = jobId then { j with metadata := some m } else j)

/-- `setJobTranscription` (`jobStore.ts`). -/
def setJobTranscription (jobId : String) (t : Transcription) (st : Store) :
    Store :=
  st.map (fun j =>
    if j.jobId = jobId then { j with transcription := some t } else j)

/-- `setJobVisualAnalysis` (`jobStore.ts`). -/
def setJobVisualAnalysis (jobId : String) (v : VisualAnalysis) (st : Store) :
    Store :=
  st.map (fun j =>
    if j.jobId = jobId then { j with visualAnalysis := some v } else j)

/-- `setJobScript` (`jobStore.ts`). -/
def setJobScript (jobId : String) (script : String) (st : Store) : Store :=
  st.map (fun j =>
    if j.jobId = jobId then { j with script := some script } else j)

/-- `setJobError` (`jobStore.ts`): records the top-level error, forces
`status := error` and sets `completedAt`. -/
def setJobError (jobId : String) (e : JobError) (now : Nat) (st : Store) :
    Store :=
  st.map (fun j =>
    if j.jobId = jobId then
      { j with error := some e, status := .error, completedAt := some now }
    else j)

/-- Modelled from the spec: `setJobStageError` is imported from the job
store by the orchestrator but its definition is not under `src/`.  Per the
spec's data model, the job carries "an optional per-stage error map for
partial failures", and `set-error` is the only mutator that also changes
the top-level status — so this one records the message under the stage key
and touches nothing else. -/
def setJobStageError (jobId : String) (stage : String) (msg : String)
    (st : Store) : Store :=
  st.map (fun j =>
    if j.jobId = jobId then
      { j with stageErrors :=
          if j.stageErrors.any (fun p => p.1 = stage) then
            j.stageErrors.map (fun p => if p.1 = stage then (stage, msg) else p)
          else j.stageErrors ++ [(stage, msg)] }
    else j)

/-- `deleteJob` (`jobStore.ts`): `jobs.delete(jobId)`. -/
def deleteJob (jobId : String) (st : Store) : Bool × Store :=
  (st.any (fun j => j.jobId = jobId), st.filter (fun j => ¬ j.jobId = jobId))

/-- `getActiveJobs` (`jobStore.ts`): values with status `processing`, in
insertion order. -/
def getActiveJobs (st : Store) : List Job :=
  st.filter (fun j => j.status = .processing)

/-- Stable insertion by `createdAt`: an element is placed before the first
strictly-later entry and after every earlier-or-equal one, which is what a
stable ascending sort produces. -/
def insertByCreated (j : Job) : List Job → List Job
  | [] => [j]
  | k :: ks =>
    if j.createdAt ≤ k.createdAt then j :: k :: ks
    else k :: insertByCreated j ks

/-- Stable sort by `createdAt` (JS `Array.prototype.sort` with comparator
`(a, b) => a.createdAt - b.createdAt` is a stable ascending sort). -/
def sortByCreated : List Job → List Job
  | [] => []
  | j :: js => insertByCreated j (sortByCreated js)

/-- `getQueuedJobs` (`jobStore.ts`): values with status `queued`, sorted by
`createdAt` ascending (stable, so insertion order breaks ties). -/
def getQueuedJobs (st : Store) : List Job :=
  sortByCreated (st.filter (fun j => j.status = .queued))

/-- `getActiveJobCount` (`jobStore.ts`). -/
def getActiveJobCount (st : Store) : Nat :=
  (getActiveJobs st).length

/-- `getQueuedJobCount` (`jobStore.ts`). -/
def getQueuedJobCount (st : Store) : Nat :=
  (getQueuedJobs st).length

/-- `JOB_EXPIRY_MS` from `shared/constants.ts`: 30 minutes. -/
def JOB_EXPIRY_MS : Nat := 30 * 60 * 1000

/-- The deletion test of `cleanExpiredJobs`: terminal status and age since
creation strictly above the expiry window.  `now - job.createdAt` is JS
number subtraction; on `Nat` the truncated difference agrees with it on
the comparison `> JOB_EXPIRY_MS` (a negative JS difference and a truncated
`0` both fail it). -/
def isExpired (now : Nat) (j : Job) : Bool :=
  (j.status = .complete ∨ j.status = .error ∨ j.status = .cancelled) ∧
    now - j.createdAt > JOB_EXPIRY_MS

/-- `cleanExpiredJobs` (`jobStore.ts`): delete every expired entry while
iterating, counting deletions; returns the count (here: the swept store
and the count). -/
def cleanExpiredJobs (now : Nat) : Store → Store × Nat
  | [] => ([], 0)
  | j :: js =>
    let (rest, n) := cleanExpiredJobs now js
    if isExpired now j then (rest, n + 1) else (j :: rest, n)

/-! ## Queue / admission scheduler (`queueManager.ts`)

`config.maxConcurrentJobs` and `config.maxQueueSize` are read from the
environment (defaults 2 and 20), so they appear as parameters `C` and `Q`.
The registered process callback (`onProcessJob`, set by
`setProcessCallback`) is fire-and-forget — the scheduler does not await
it — so the model records whether a callback is registered (`cbSet`) and
which job id it was invoked with, instead of running it. -/

/-- `canEnqueue` (`queueManager.ts`). -/
def canEnqueue (Q : Nat) (st : Store) : Bool :=
  getQueuedJobCount st + getActiveJobCount st < Q

/-- `tryStartNext` (`queueManager.ts`).  Returns the new store and, when a
job was started and a callback is registered, the id the callback was
invoked with. -/
def tryStartNext (C : Nat) (cbSet : Bool) (now : Nat) (st : Store) :
    Store × Option String :=
  if getActiveJobCount st ≥ C then (st, none)
  else
    match getQueuedJobs st with
    | [] => (st, none)
    | next :: _ =>
      (updateJobStatus next.jobId .processing now st,
       if cbSet then some next.jobId else none)

/-- `onJobComplete` (`queueManager.ts`): logs and calls `tryStartNext`;
the completed job's id is not used for anything else. -/
def onJobComplete (C : Nat) (cbSet : Bool) (now : Nat) (st : Store) :
    Store × Option String :=
  tryStartNext C cbSet now st

/-- `cancelJob` (`queueManager.ts`): succeeds (status → `cancelled`) only
when the job exists with status `queued`; otherwise returns `false` and
leaves the store untouched. -/
def cancelJob (jobId : String) (now : Nat) (st : Store) : Bool × Store :=
  match getJob jobId st with
  | none => (false, st)
  | some job =>
    if job.status = .queued then (true, updateJobStatus jobId .cancelled now st)
    else (false, st)

/-- `getQueuePosition` (`queueManager.ts`): 1-based position in the queued
ordering, `-1` when not queued. -/
def getQueuePosition (jobId : String) (st : Store) : Int :=
  match (getQueuedJobs st).findIdx? (fun j => j.jobId = jobId) with
  | none => -1
  | some i => (i : Int) + 1

/-! ## Sequences of scheduler-visible store transitions

The operations that change job `status`/`completedAt` in the running
system: job creation and cancellation, `tryStartNext` (directly and via
`onJobComplete`), and the orchestrator's terminal updates
(`updateJobStatus(id, "complete")` on success, `setJobError` on failure). -/

/-- One scheduler-visible store transition. -/
inductive SchedOp where
  /-- `createJob` at a route (`jobId` is the fresh UUID). -/
  | create (platform : Platform) (videoUrl filePath : Option String)
      (jobId : String) (now : Nat)
  /-- `tryStartNext` (route handlers call it after creation). -/
  | start (now : Nat)
  /-- `onJobComplete` from the orchestrator's `finally`. -/
  | completeJob (now : Nat)
  /-- `cancelJob` from the DELETE route. -/
  | cancel (jobId : String) (now : Nat)
  /-- the orchestrator's `updateJobStatus(jobId, "complete")`. -/
  | finish (jobId : String) (now : Nat)
  /-- the orchestrator's `setJobError`. -/
  | fail (jobId : String) (e : JobError) (now : Nat)
  deriving Repr

/-- Apply one scheduler-visible transition to the store. -/
def applyOp (C : Nat) (cbSet : Bool) (st : Store) : SchedOp → Store
  | .create p u f id now => (createJob p u f id now st).2
  | .start now => (tryStartNext C cbSet now st).1
  | .completeJob now => (onJobComplete C cbSet now st).1
  | .cancel id now => (cancelJob id now st).2
  | .finish id now => updateJobStatus id .complete now st
  | .fail id e now => setJobError id e now st

/-- Run a sequence of scheduler-visible transitions. -/
def runOps (C : Nat) (cbSet : Bool) (st : Store) : List SchedOp → Store
  | [] => st
  | op :: ops => runOps C cbSet (applyOp C cbSet st op) ops

/-! ## Fallback formatter (`scriptAssembler.ts`) -/

/-- The TS string of a `Platform` value. -/
def platformStr : Platform → String
  | .youtube => "youtube"
  | .tiktok => "tiktok"
  | .instagram => "instagram"
  | .vimeo => "vimeo"
  | .upload => "upload"
  | .unknown => "unknown"

/-- `s.charAt(0).toUpperCase() + s.slice(1)`. -/
def capitalizeFirst (s : String) : String :=
  match s.data with
  | [] => ""
  | c :: cs => String.mk (c.toUpper :: cs)

/-- `String(n).padStart(2, "0")`. -/
def padStart2 (s : String) : String :=
  String.mk (List.replicate (2 - s.length) '0' ++ s.data)

/-- `formatTimestamp` (`scriptAssembler.ts`): milliseconds → `MM:SS`. -/
def formatTimestamp (ms : Nat) : String :=
  let totalSeconds := ms / 1000
  let minutes := totalSeconds / 60
  let seconds := totalSeconds % 60
  padStart2 (toString minutes) ++ ":" ++ padStart2 (toString seconds)

/-- `formatDuration` (`scriptAssembler.ts`): seconds → `M:SS`
(`Math.round` on a natural number of seconds is the identity). -/
def formatDuration (seconds : Nat) : String :=
  let m := seconds / 60
  let s := seconds % 60
  toString m ++ ":" ++ padStart2 (toString s)

/-- `lines.join("\n")`. -/
def joinLines : List String → String
  | [] => ""
  | [l] => l
  | l :: ls => l ++ "\n" ++ joinLines ls

/-- Stable insertion by the timestamp component, as in `sortByCreated`. -/
def insertByTimestamp (e : Nat × String) :
    List (Nat × String) → List (Nat × String)
  | [] => [e]
  | f :: fs =>
    if e.1 ≤ f.1 then e :: f :: fs else f :: insertByTimestamp e fs

/-- Stable sort of timeline entries by timestamp
(`entries.sort((a, b) => a.timestamp - b.timestamp)`, a stable ascending
sort). -/
def sortByTimestamp : List (Nat × String) → List (Nat × String)
  | [] => []
  | e :: es => insertByTimestamp e (sortByTimestamp es)

/-- The input record of `formatBasicScript`. -/
structure BasicScriptInput where
  title : String
  duration : Nat
  sourceUrl : String
  platform : Platform
  dialogueEntries : List DialogueEntry
  actionEntries : List ActionEntry
  transcriptionFailed : Bool
  visualFailed : Bool

/-- `formatBasicScript` (`scriptAssembler.ts`): the deterministic fallback
formatter.  `today` is the value of
`new Date().toISOString().split("T")[0]`. -/
def formatBasicScript (input : BasicScriptInput) (today : String) : String :=
  let header : List String :=
    ["TITLE: " ++ input.title,
     "SOURCE: " ++ input.sourceUrl,
     "PLATFORM: " ++ capitalizeFirst (platformStr input.platform),
     "DURATION: " ++ formatDuration input.duration,
     "PROCESSED: " ++ today,
     "BACKGROUND MUSIC: None detected",
     "",
     "NOTE: Script formatting was simplified due to a processing issue.",
     "",
     "---",
     ""]
  let failNotes : List String :=
    (if input.transcriptionFailed then
      ["[Audio transcription was unavailable for this video]", ""]
     else []) ++
    (if input.visualFailed then
      ["[Visual analysis was unavailable for this video]", ""]
     else [])
  let entries : List (Nat × String) :=
    input.dialogueEntries.map
      (fun d => (d.startTime, d.speaker ++ ": " ++ d.text)) ++
    input.actionEntries.map
      (fun a =>
        (a.timestamp,
         "[" ++ a.action ++ "]" ++
           (if a.confidence = .uncertain then " [check this]" else "")))
  let entryLines : List String :=
    (sortByTimestamp entries).map
      (fun e => formatTimestamp e.1 ++ "  " ++ e.2)
  joinLines (header ++ failNotes ++ entryLines)

/-! ## Pipeline orchestrator (`pipelineOrchestrator.ts`)

`processJob` awaits external collaborators at every stage; their outcomes
are an explicit environment `Env`.  Lean has no exceptions, so the `try`
body is the function `pipelineTry`, returning `some message` where the TS
code throws; the catch-handler (`setJobError`) and the `finally`
(`onJobComplete`) are applied around it exactly as in the source.  The
two `.then`/`.catch` handler pairs of the transcription/visual fan-out
write disjoint job fields, so their effects are applied in program
order. -/

/-- Result of `downloadVideo` (`videoDownloader.ts` contract). -/
structure DownloadResult where
  filePath : String
  title : String
  duration : Nat

/-- Result of `extractAudio` (`audioExtractor.ts`): always resolves,
signalling absence of audio as data. -/
structure AudioResult where
  audioPath : String
  hasAudio : Bool
  extractionError : Option String

/-- Outcomes of the external collaborators awaited by `processJob`, plus
the ambient clock/date reads.  `framesR` carries the number of sampled
frames (the orchestrator uses the frame list only through its length and
by passing it opaquely to `analyzeFrames`). -/
structure Env where
  download : Except String DownloadResult
  probedDuration : Nat
  audio : AudioResult
  framesR : Except String Nat
  transcriptionR : Except String Transcription
  visualR : Except String VisualAnalysis
  assemblyR : Except String String
  now : Nat
  today : String

/-- JS `s || d` for a nullable string `s` (empty strings are falsy). -/
def jsOrElse (s : Option String) (d : String) : String :=
  match s with
  | none => d
  | some u => if u = "" then d else u

/-- Stages 2–4 of the `try` body of `processJob`, entered once a video
path is available: metadata, extraction fan-out, transcription/visual
fan-out, joint-failure check, assembly with fallback. -/
def pipelineAfterDownload (env : Env) (jid : String) (job : Job)
    (title : String) (duration : Nat) (st : Store) : Store × Option String :=
  let st := setJobMetadata jid ⟨title, duration, job.videoUrl⟩ st
  let st := updateJobStage jid .transcription .in_progress st
  let st := updateJobStage jid .visual .in_progress st
  match env.framesR with
  | .error msg => (st, some msg)
  | .ok nframes =>
    let tRes : Store × List DialogueEntry × List String × Bool :=
      if env.audio.hasAudio then
        match env.transcriptionR with
        | .ok r =>
          (updateJobStage jid .transcription .complete st,
           r.dialogueEntries, r.speakers, false)
        | .error e =>
          (setJobStageError jid "transcription" e
             (updateJobStage jid .transcription .error st),
           [], [], true)
      else (updateJobStage jid .transcription .skipped st, [], [], false)
    match tRes with
    | (st, dialogueEntries, speakers, transcriptionFailed) =>
      let vRes : Store × List ActionEntry × List String × List Scene × Bool :=
        if nframes > 0 then
          match env.visualR with
          | .ok r =>
            (updateJobStage jid .visual .complete st,
             r.actionEntries, r.characters, r.scenes, false)
          | .error e =>
            (setJobStageError jid "visual" e
               (updateJobStage jid .visual .error st),
             [], [], [], true)
        else (updateJobStage jid .visual .skipped st, [], [], [], false)
      match vRes with
      | (st, actionEntries, characters, scenes, visualFailed) =>
        if transcriptionFailed ∧ visualFailed then
          (st, some "Both transcription and visual analysis failed")
        else
          let st := setJobTranscription jid ⟨dialogueEntries, speakers⟩ st
          let st := setJobVisualAnalysis jid ⟨actionEntries, characters, scenes⟩ st
          let st := updateJobStage jid .assembly .in_progress st
          let script :=
            match env.assemblyR with
            | .ok s => s
            | .error _ =>
              formatBasicScript
                { title := title
                  duration := duration
                  sourceUrl := jsOrElse job.videoUrl "File upload"
                  platform := job.platform
                  dialogueEntries := dialogueEntries
                  actionEntries := actionEntries
                  transcriptionFailed := transcriptionFailed
                  visualFailed := visualFailed } env.today
          let st := setJobScript jid script st
          let st := updateJobStage jid .assembly .complete st
          let st := updateJobStatus jid .complete env.now st
          (st, none)

/-- The whole `try` body of `processJob`: stage 1 (download / skipped /
no-path throw), then `pipelineAfterDownload`.  Returns `some message`
where the TS code throws. -/
def pipelineTry (env : Env) (jid : String) (job : Job) (st : Store) :
    Store × Option String :=
  match job.filePath with
  | some fp =>
    let st := updateJobStage jid .download .skipped st
    let _ := fp
    pipelineAfterDownload env jid job "Untitled" env.probedDuration st
  | none =>
    match job.videoUrl with
    | some _ =>
      let st := updateJobStage jid .download .in_progress st
      match env.download with
      | .error msg => (updateJobStage jid .download .error st, some msg)
      | .ok r =>
        let st := updateJobStage jid .download .complete st
        pipelineAfterDownload env jid job r.title r.duration st
    | none => (st, some "No video path available")

/-- `processJob` (`pipelineOrchestrator.ts`).  Returns the final store and
the list of ids `onJobComplete` was invoked with: the early return for an
unknown job skips the `try`/`finally` entirely, every other path runs the
`finally` exactly once.  The catch-handler's temp-file cleanup has no
store effect. -/
def processJob (C : Nat) (cbSet : Bool) (env : Env) (jobId : String)
    (st : Store) : Store × List String :=
  match getJob jobId st with
  | none => (st, [])
  | some job =>
    let r := pipelineTry env jobId job st
    let st2 :=
      match r.2 with
      | none => r.1
      | some msg =>
        setJobError jobId
          ⟨"pipeline", msg, "Something went wrong while analyzing this video."⟩
          env.now r.1
    ((onJobComplete C cbSet env.now st2).1, [jobId])

/-! ## Infrastructure lemmas

Every job-store mutator has the shape
`st.map (fun j => if j.jobId = id then f j else j)` (a JS `Map` holds at
most one entry per key; the TS code mutates `jobs.get(jobId)` in place).
`jobUpd` names that shape, and `rfl`-bridges connect each mutator to it. -/

/-- The common shape of the store mutators. -/
def jobUpd (id : String) (f : Job → Job) (st : Store) : Store :=
  st.map (fun j => if j.jobId = id then f j else j)

theorem updateJobStatus_eq_jobUpd (id : String) (s : JobStatus) (now : Nat)
    (st : Store) :
    updateJobStatus id s now st =
      jobUpd id (fun j =>
        { j with
          status := s
          completedAt :=
            if s = .complete ∨ s = .error then some now else j.completedAt }) st :=
  rfl

theorem updateJobStage_eq_jobUpd (id : String) (stg : StageName)
    (v : StageStatus) (st : Store) :
    updateJobStage id stg v st =
      jobUpd id (fun j => { j with stages := j.stages.set stg v }) st :=
  rfl

theorem setJobMetadata_eq_jobUpd (id : String) (m : Metadata) (st : Store) :
    setJobMetadata id m st =
      jobUpd id (fun j => { j with metadata := some m }) st :=
  rfl

theorem setJobTranscription_eq_jobUpd (id : String) (t : Transcription)
    (st : Store) :
    setJobTranscription id t st =
      jobUpd id (fun j => { j with transcription := some t }) st :=
  rfl

theorem setJobVisualAnalysis_eq_jobUpd (id : String) (v : VisualAnalysis)
    (st : Store) :
    setJobVisualAnalysis id v st =
      jobUpd id (fun j => { j with visualAnalysis := some v }) st :=
  rfl

theorem setJobScript_eq_jobUpd (id : String) (s : String) (st : Store) :
    setJobScript id s st =
      jobUpd id (fun j => { j with script := some s }) st :=
  rfl

theorem setJobError_eq_jobUpd (id : String) (e : JobError) (now : Nat)
    (st : Store) :
    setJobError id e now st =
      jobUpd id (fun j =>
        { j with error := some e, status := .error, completedAt := some now }) st :=
  rfl

theorem setJobStageError_eq_jobUpd (id stage msg : String) (st : Store) :
    setJobStageError id stage msg st =
      jobUpd id (fun j =>
        { j with stageErrors :=
            if j.stageErrors.any (fun p => p.1 = stage) then
              j.stageErrors.map (fun p => if p.1 = stage then (stage, msg) else p)
            else j.stageErrors ++ [(stage, msg)] }) st :=
  rfl

/-- A mutator is inert on a store that does not hold the key. -/
theorem jobUpd_of_not_mem (id : String) (f : Job → Job) (st : Store)
    (h : id ∉ st.map Job.jobId) : jobUpd id f st = st := by
  induction st with
  | nil => rfl
  | cons j js ih =>
    simp only [List.map_cons, List.mem_cons] at h
    push_neg at h
    simp only [jobUpd, List.map_cons]
    rw [if_neg (fun hj => h.1 hj.symm)]
    exact congrArg (j :: ·) (ih h.2)

/-- `jobUpd` leaves the key sequence unchanged when `f` preserves the
matched key. -/
theorem jobUpd_map_jobId (id : String) (f : Job → Job) (st : Store)
    (hf : ∀ j : Job, j.jobId = id → (f j).jobId = id) :
    (jobUpd id f st).map Job.jobId = st.map Job.jobId := by
  induction st with
  | nil => rfl
  | cons j js ih =>
    simp only [jobUpd, List.map_cons] at ih ⊢
    by_cases hj : j.jobId = id
    · rw [if_pos hj, ih, hf j hj, hj]
    · rw [if_neg hj, ih]

theorem wellFormed_jobUpd (id : String) (f : Job → Job) (st : Store)
    (hf : ∀ j : Job, j.jobId = id → (f j).jobId = id)
    (h : WellFormed st) : WellFormed (jobUpd id f st) := by
  unfold WellFormed
  rw [jobUpd_map_jobId id f st hf]
  exact h

theorem getJob_some (id : String) (st : Store) (j : Job)
    (h : getJob id st = some j) : j ∈ st ∧ j.jobId = id := by
  refine ⟨List.mem_of_find?_eq_some h, ?_⟩
  have := List.find?_some h
  simpa using this

/-- Looking up the mutated key returns the mutated entry. -/
theorem getJob_jobUpd_self (id : String) (f : Job → Job) (st : Store)
    (hf : ∀ j : Job, j.jobId = id → (f j).jobId = id) :
    getJob id (jobUpd id f st) = (getJob id st).map f := by
  induction st with
  | nil => rfl
  | cons j js ih =>
    by_cases hj : j.jobId = id
    · simp [jobUpd, getJob, List.find?_cons, hj, hf j hj]
    · simp only [jobUpd, getJob, List.map_cons, List.find?_cons] at ih ⊢
      simp [hj, ih]

/-- Looking up a different key is unaffected by a mutator. -/
theorem getJob_jobUpd_ne (id id' : String) (f : Job → Job) (st : Store)
    (hf : ∀ j : Job, j.jobId = id → (f j).jobId = id)
    (hne : id' ≠ id) :
    getJob id' (jobUpd id f st) = getJob id' st := by
  induction st with
  | nil => rfl
  | cons j js ih =>
    by_cases hj : j.jobId = id
    · have h1 : (f j).jobId ≠ id' := by
        rw [hf j hj]
        exact fun h => hne h.symm
      have h2 : j.jobId ≠ id' := by
        rw [hj]
        exact fun h => hne h.symm
      simp only [jobUpd, getJob, List.map_cons, List.find?_cons] at ih ⊢
      simp [hj, h1, h2, hne.symm, ih]
    · simp only [jobUpd, getJob, List.map_cons, List.find?_cons] at ih ⊢
      simp [hj, ih]

/-- Members of a mutated store come from the original store, mutated iff
they carry the key. -/
theorem mem_jobUpd (id : String) (f : Job → Job) (st : Store) (j' : Job)
    (h : j' ∈ jobUpd id f st) :
    ∃ j ∈ st, (j.jobId = id ∧ j' = f j) ∨ (j.jobId ≠ id ∧ j' = j) := by
  rcases List.mem_map.mp h with ⟨j, hj, hmap⟩
  refine ⟨j, hj, ?_⟩
  by_cases hid : j.jobId = id
  · left
    exact ⟨hid, by rw [← hmap, if_pos hid]⟩
  · right
    exact ⟨hid, by rw [← hmap, if_neg hid]⟩

/-- In a well-formed store, the key determines the entry. -/
theorem wellFormed_unique (st : Store) (h : WellFormed st) (j k : Job)
    (hj : j ∈ st) (hk : k ∈ st) (hid : j.jobId = k.jobId) : j = k :=
  List.inj_on_of_nodup_map h hj hk hid

theorem getActiveJobCount_cons (j : Job) (st : Store) :
    getActiveJobCount (j :: st) =
      (if j.status = .processing then 1 else 0) + getActiveJobCount st := by
  simp only [getActiveJobCount, getActiveJobs, List.filter_cons]
  by_cases h : j.status = .processing
  · simp [h, Nat.add_comm]
  · simp [h]

/-- A mutation that never makes an entry `processing` cannot raise the
active count. -/
theorem activeCount_jobUpd_le (id : String) (f : Job → Job) (st : Store)
    (h : ∀ j : Job, j.jobId = id → (f j).status = .processing →
      j.status = .processing) :
    getActiveJobCount (jobUpd id f st) ≤ getActiveJobCount st := by
  induction st with
  | nil => exact Nat.le_refl _
  | cons j js ih =>
    simp only [jobUpd, List.map_cons] at ih ⊢
    by_cases hj : j.jobId = id
    · rw [if_pos hj, getActiveJobCount_cons, getActiveJobCount_cons]
      refine Nat.add_le_add ?_ ih
      by_cases hp : (f j).status = .processing
      · simp [hp, h j hj hp]
      · simp [hp]
    · rw [if_neg hj, getActiveJobCount_cons, getActiveJobCount_cons]
      exact Nat.add_le_add (Nat.le_refl _) ih

/-- On a well-formed store a mutation touches at most one entry, so the
active count rises by at most one. -/
theorem activeCount_jobUpd_le_succ (id : String) (f : Job → Job) (st : Store)
    (hwf : WellFormed st) :
    getActiveJobCount (jobUpd id f st) ≤ getActiveJobCount st + 1 := by
  induction st with
  | nil => simp [jobUpd, getActiveJobCount, getActiveJobs]
  | cons j js ih =>
    have hwf' : WellFormed js := (List.nodup_cons.mp hwf).2
    simp only [jobUpd, List.map_cons] at ih ⊢
    by_cases hj : j.jobId = id
    · rw [if_pos hj]
      have hrest : id ∉ js.map Job.jobId := by
        have := (List.nodup_cons.mp hwf).1
        rw [← hj]
        exact this
      have : jobUpd id f js = js := jobUpd_of_not_mem id f js hrest
      simp only [jobUpd] at this
      rw [getActiveJobCount_cons, getActiveJobCount_cons, this]
      have h1 : (if (f j).status = .processing then 1 else 0) ≤ 1 := by
        split <;> simp
      omega
    · rw [if_neg hj, getActiveJobCount_cons, getActiveJobCount_cons]
      have := ih hwf'
      omega

theorem getActiveJobCount_append (st : Store) (j : Job) :
    getActiveJobCount (st ++ [j]) =
      getActiveJobCount st + (if j.status = .processing then 1 else 0) := by
  simp only [getActiveJobCount, getActiveJobs, List.filter_append,
    List.length_append, List.filter_cons, List.filter_nil]
  by_cases h : j.status = .processing <;> simp [h]

theorem storeSet_of_mem (j : Job) (st : Store)
    (h : st.any (fun k => k.jobId = j.jobId) = true) :
    storeSet j st = jobUpd j.jobId (fun _ => j) st := by
  simp only [storeSet, jobUpd, h, if_true]

theorem storeSet_of_not_mem (j : Job) (st : Store)
    (h : st.any (fun k => k.jobId = j.jobId) = false) :
    storeSet j st = st ++ [j] := by
  simp only [storeSet, h]
  simp

theorem wellFormed_storeSet (j : Job) (st : Store) (hwf : WellFormed st) :
    WellFormed (storeSet j st) := by
  cases h : st.any (fun k => k.jobId = j.jobId) with
  | true =>
    rw [storeSet_of_mem j st h]
    exact wellFormed_jobUpd _ _ _ (fun k hk => hk ▸ rfl) hwf
  | false =>
    rw [storeSet_of_not_mem j st h]
    have hno : ∀ k ∈ st, ¬ (k.jobId = j.jobId) := by
      intro k hk
      have := List.any_eq_false.mp h
      exact fun hkj => by simpa [hkj] using this k hk
    simp only [WellFormed, List.map_append, List.map_cons, List.map_nil]
    rw [List.nodup_append]
    refine ⟨hwf, List.nodup_singleton _, ?_⟩
    intro a ha hb
    simp only [List.mem_singleton] at hb
    rcases List.mem_map.mp ha with ⟨k, hk, hkj⟩
    exact hno k hk (by rw [hkj, hb])

theorem activeCount_storeSet_le (j : Job) (st : Store)
    (h : j.status ≠ .processing) :
    getActiveJobCount (storeSet j st) ≤ getActiveJobCount st := by
  cases hm : st.any (fun k => k.jobId = j.jobId) with
  | true =>
    rw [storeSet_of_mem j st hm]
    exact activeCount_jobUpd_le _ _ _ (fun k _ hp => absurd hp h)
  | false =>
    rw [storeSet_of_not_mem j st hm, getActiveJobCount_append]
    simp [h]

theorem getJob_append_single (id' : String) (st : Store) (j : Job)
    (hne : id' ≠ j.jobId) : getJob id' (st ++ [j]) = getJob id' st := by
  induction st with
  | nil => simp [getJob, List.find?, Ne.symm hne]
  | cons k ks ih =>
    simp only [List.cons_append, getJob, List.find?_cons] at ih ⊢
    cases hdec : decide (k.jobId = id') with
    | true => rfl
    | false =>
      simp only [hdec]
      exact ih

theorem getJob_storeSet_ne (j : Job) (st : Store) (id' : String)
    (hne : id' ≠ j.jobId) : getJob id' (storeSet j st) = getJob id' st := by
  cases hm : st.any (fun k => k.jobId = j.jobId) with
  | true =>
    rw [storeSet_of_mem j st hm]
    exact getJob_jobUpd_ne _ _ _ _ (fun k hk => rfl) hne
  | false =>
    rw [storeSet_of_not_mem j st hm]
    exact getJob_append_single id' st j hne

/-! ## The `completedAt` / status consistency invariant -/

/-- `completedAt` is set exactly on the statuses that set it
(`complete` and `error`). -/
def completedConsistent (j : Job) : Prop :=
  j.completedAt ≠ none ↔ (j.status = .complete ∨ j.status = .error)

/-- Every entry of the store is consistent. -/
def StoreConsistent (st : Store) : Prop :=
  ∀ j ∈ st, completedConsistent j

theorem storeConsistent_jobUpd (id : String) (f : Job → Job) (st : Store)
    (h : StoreConsistent st)
    (hf : ∀ j ∈ st, j.jobId = id → completedConsistent j →
      completedConsistent (f j)) :
    StoreConsistent (jobUpd id f st) := by
  intro j' hj'
  rcases mem_jobUpd id f st j' hj' with ⟨j, hj, hcase⟩
  rcases hcase with ⟨hid, heq⟩ | ⟨_, heq⟩
  · rw [heq]
    exact hf j hj hid (h j hj)
  · rw [heq]
    exact h j hj

/-! ## Which job does the scheduler pick?

`getQueuedJobs` stably sorts the queued jobs (in insertion order) by
`createdAt`; its head is therefore the first queued job attaining the
minimal creation time.  `firstMinByCreated` computes that job directly. -/

/-- The first element of minimal `createdAt`, scanning left to right and
preferring the earlier element on ties. -/
def firstMinByCreated : List Job → Option Job
  | [] => none
  | j :: js =>
    match firstMinByCreated js with
    | none => some j
    | some k => if j.createdAt ≤ k.createdAt then some j else some k

theorem mem_insertByCreated (j k : Job) (l : List Job) :
    k ∈ insertByCreated j l ↔ k = j ∨ k ∈ l := by
  induction l with
  | nil => simp [insertByCreated]
  | cons x xs ih =>
    simp only [insertByCreated]
    by_cases h : j.createdAt ≤ x.createdAt
    · simp [h, List.mem_cons]
    · simp only [h, if_false, List.mem_cons, ih]
      tauto

theorem mem_sortByCreated (k : Job) (l : List Job) :
    k ∈ sortByCreated l ↔ k ∈ l := by
  induction l with
  | nil => simp [sortByCreated]
  | cons x xs ih =>
    simp only [sortByCreated, mem_insertByCreated, List.mem_cons, ih]

theorem head?_insertByCreated (j : Job) (l : List Job) :
    (insertByCreated j l).head? =
      match l.head? with
      | none => some j
      | some k => if j.createdAt ≤ k.createdAt then some j else some k := by
  cases l with
  | nil => rfl
  | cons x xs =>
    simp only [insertByCreated, List.head?_cons]
    by_cases h : j.createdAt ≤ x.createdAt <;> simp [h]

theorem head?_sortByCreated (l : List Job) :
    (sortByCreated l).head? = firstMinByCreated l := by
  induction l with
  | nil => rfl
  | cons x xs ih =>
    simp only [sortByCreated, firstMinByCreated, head?_insertByCreated, ih]

theorem firstMinByCreated_ne_none (x : Job) (xs : List Job) :
    firstMinByCreated (x :: xs) ≠ none := by
  simp only [firstMinByCreated]
  split
  · simp
  · split <;> simp

theorem firstMinByCreated_mem (l : List Job) :
    ∀ j : Job, firstMinByCreated l = some j → j ∈ l := by
  induction l with
  | nil => intro j h; simp [firstMinByCreated] at h
  | cons x xs ih =>
    intro j h
    cases hm : firstMinByCreated xs with
    | none =>
      simp only [firstMinByCreated, hm] at h
      cases h
      exact List.mem_cons_self x xs
    | some m =>
      simp only [firstMinByCreated, hm] at h
      by_cases hle : x.createdAt ≤ m.createdAt
      · rw [if_pos hle] at h
        cases h
        exact List.mem_cons_self x xs
      · rw [if_neg hle] at h
        cases h
        exact List.mem_cons_of_mem _ (ih j hm)

theorem firstMinByCreated_le (l : List Job) :
    ∀ j : Job, firstMinByCreated l = some j →
      ∀ k ∈ l, j.createdAt ≤ k.createdAt := by
  induction l with
  | nil => intro j h; simp [firstMinByCreated] at h
  | cons x xs ih =>
    intro j h k hk
    cases hm : firstMinByCreated xs with
    | none =>
      simp only [firstMinByCreated, hm] at h
      have hxs : xs = [] := by
        cases xs with
        | nil => rfl
        | cons y ys => exact absurd hm (firstMinByCreated_ne_none y ys)
      cases h
      subst hxs
      simp only [List.mem_singleton] at hk
      rw [hk]
    | some m =>
      simp only [firstMinByCreated, hm] at h
      rcases List.mem_cons.mp hk with hkx | hk'
      · rw [hkx]
        by_cases hle : x.createdAt ≤ m.createdAt
        · rw [if_pos hle] at h
          cases h
          exact Nat.le_refl _
        · rw [if_neg hle] at h
          cases h
          exact Nat.le_of_lt (Nat.lt_of_not_le hle)
      · by_cases hle : x.createdAt ≤ m.createdAt
        · rw [if_pos hle] at h
          cases h
          exact Nat.le_trans hle (ih m hm k hk')
        · rw [if_neg hle] at h
          cases h
          exact ih j hm k hk'

theorem firstMinByCreated_decomp (l : List Job) :
    ∀ j : Job, firstMinByCreated l = some j →
      ∃ pre post, l = pre ++ j :: post ∧
        ∀ k ∈ pre, j.createdAt < k.createdAt := by
  induction l with
  | nil => intro j h; simp [firstMinByCreated] at h
  | cons x xs ih =>
    intro j h
    cases hm : firstMinByCreated xs with
    | none =>
      simp only [firstMinByCreated, hm] at h
      cases h
      exact ⟨[], xs, rfl, by simp⟩
    | some m =>
      simp only [firstMinByCreated, hm] at h
      by_cases hle : x.createdAt ≤ m.createdAt
      · rw [if_pos hle] at h
        cases h
        exact ⟨[], xs, rfl, by simp⟩
      · rw [if_neg hle] at h
        cases h
        rcases ih j hm with ⟨pre, post, hsplit, hlt⟩
        refine ⟨x :: pre, post, by simp [hsplit], ?_⟩
        intro k hk
        rcases List.mem_cons.mp hk with rfl | hk'
        · omega
        · exact hlt k hk'

/-! ## Preservation lemmas for scheduler-visible transitions -/

theorem wellFormed_updateJobStatus (id : String) (s : JobStatus) (now : Nat)
    (st : Store) (hwf : WellFormed st) :
    WellFormed (updateJobStatus id s now st) := by
  rw [updateJobStatus_eq_jobUpd]
  exact wellFormed_jobUpd _ _ _ (fun j hj => hj) hwf

theorem tryStartNext_fst_wellFormed (C : Nat) (cbSet : Bool) (now : Nat)
    (st : Store) (hwf : WellFormed st) :
    WellFormed (tryStartNext C cbSet now st).1 := by
  unfold tryStartNext
  by_cases hC : getActiveJobCount st ≥ C
  · simp [hC, hwf]
  · simp only [hC, if_false]
    cases hq : getQueuedJobs st with
    | nil => exact hwf
    | cons next rest => exact wellFormed_updateJobStatus _ _ _ _ hwf

theorem cancelJob_snd_wellFormed (id : String) (now : Nat) (st : Store)
    (hwf : WellFormed st) : WellFormed (cancelJob id now st).2 := by
  cases hg : getJob id st with
  | none => simp only [cancelJob, hg]; exact hwf
  | some job =>
    simp only [cancelJob, hg]
    by_cases hs : job.status = .queued
    · simp only [hs, if_true]
      exact wellFormed_updateJobStatus _ _ _ _ hwf
    · simp only [hs, if_false]
      exact hwf

theorem applyOp_wellFormed (C : Nat) (cbSet : Bool) (st : Store)
    (op : SchedOp) (hwf : WellFormed st) :
    WellFormed (applyOp C cbSet st op) := by
  cases op with
  | create p u f id now =>
    simp only [applyOp, createJob]
    exact wellFormed_storeSet _ _ hwf
  | start now =>
    simp only [applyOp]
    exact tryStartNext_fst_wellFormed C cbSet now st hwf
  | completeJob now =>
    simp only [applyOp, onJobComplete]
    exact tryStartNext_fst_wellFormed C cbSet now st hwf
  | cancel id now =>
    simp only [applyOp]
    exact cancelJob_snd_wellFormed id now st hwf
  | finish id now =>
    simp only [applyOp]
    exact wellFormed_updateJobStatus _ _ _ _ hwf
  | fail id e now =>
    simp only [applyOp]
    rw [setJobError_eq_jobUpd]
    exact wellFormed_jobUpd _ _ _ (fun j hj => hj) hwf

theorem activeCount_updateJobStatus_le (id : String) (s : JobStatus)
    (now : Nat) (st : Store) (hs : s ≠ .processing) :
    getActiveJobCount (updateJobStatus id s now st) ≤ getActiveJobCount st := by
  rw [updateJobStatus_eq_jobUpd]
  exact activeCount_jobUpd_le _ _ _ (fun j _ hp => absurd hp hs)

theorem tryStartNext_count_le (C : Nat) (cbSet : Bool) (now : Nat)
    (st : Store) (hwf : WellFormed st)
    (h : getActiveJobCount st ≤ C) :
    getActiveJobCount (tryStartNext C cbSet now st).1 ≤ C := by
  unfold tryStartNext
  by_cases hC : getActiveJobCount st ≥ C
  · simp [hC, h]
  · simp only [hC, if_false]
    cases hq : getQueuedJobs st with
    | nil => exact h
    | cons next rest =>
      have hle : getActiveJobCount (updateJobStatus next.jobId .processing now st) ≤
          getActiveJobCount st + 1 := by
        rw [updateJobStatus_eq_jobUpd]
        exact activeCount_jobUpd_le_succ _ _ _ hwf
      simp only []
      omega

theorem applyOp_activeCount (C : Nat) (cbSet : Bool) (st : Store)
    (op : SchedOp) (hwf : WellFormed st)
    (h : getActiveJobCount st ≤ C) :
    getActiveJobCount (applyOp C cbSet st op) ≤ C := by
  cases op with
  | create p u f id now =>
    simp only [applyOp, createJob]
    refine Nat.le_trans (activeCount_storeSet_le _ _ ?_) h
    simp
  | start now =>
    simp only [applyOp]
    exact tryStartNext_count_le C cbSet now st hwf h
  | completeJob now =>
    simp only [applyOp, onJobComplete]
    exact tryStartNext_count_le C cbSet now st hwf h
  | cancel id now =>
    simp only [applyOp]
    cases hg : getJob id st with
    | none => simp only [cancelJob, hg]; exact h
    | some job =>
      simp only [cancelJob, hg]
      by_cases hs : job.status = .queued
      · simp only [hs, if_true]
        exact Nat.le_trans
          (activeCount_updateJobStatus_le _ _ _ _ (by simp)) h
      · simp only [hs, if_false]
        exact h
  | finish id now =>
    simp only [applyOp]
    exact Nat.le_trans (activeCount_updateJobStatus_le _ _ _ _ (by simp)) h
  | fail id e now =>
    simp only [applyOp]
    rw [setJobError_eq_jobUpd]
    exact Nat.le_trans
      (activeCount_jobUpd_le _ _ _ (fun j _ hp => by simp at hp)) h

theorem runOps_invariant (C : Nat) (cbSet : Bool) (ops : List SchedOp) :
    ∀ st : Store, WellFormed st → getActiveJobCount st ≤ C →
      WellFormed (runOps C cbSet st ops) ∧
        getActiveJobCount (runOps C cbSet st ops) ≤ C := by
  induction ops with
  | nil => exact fun st hwf h => ⟨hwf, h⟩
  | cons op rest ih =>
    intro st hwf h
    exact ih _ (applyOp_wellFormed C cbSet st op hwf)
      (applyOp_activeCount C cbSet st op hwf h)

/-! ## Claim C2 -/

/-- **C2**: starting from a well-formed store with at most `C` jobs
`processing`, no sequence of `createJob`, `tryStartNext`, `onJobComplete`,
`cancelJob` and orchestrator terminal updates ever pushes the number of
`processing` jobs above the configured limit `C`; moreover `tryStartNext`
raises the count by at most one and is a strict no-op once the count has
reached `C`. -/
theorem processing_never_exceeds_limit (C : Nat) (cbSet : Bool) (st : Store)
    (hwf : WellFormed st) (hinit : getActiveJobCount st ≤ C) :
    (∀ ops : List SchedOp, getActiveJobCount (runOps C cbSet st ops) ≤ C) ∧
    (∀ now : Nat, C ≤ getActiveJobCount st →
      tryStartNext C cbSet now st = (st, none)) ∧
    (∀ now : Nat,
      getActiveJobCount (tryStartNext C cbSet now st).1 ≤
        getActiveJobCount st + 1) := by
  refine ⟨fun ops => (runOps_invariant C cbSet ops st hwf hinit).2, ?_, ?_⟩
  · intro now hC
    unfold tryStartNext
    simp [Nat.le_of_eq rfl, hC]
  · intro now
    unfold tryStartNext
    by_cases hC : getActiveJobCount st ≥ C
    · simp [hC]
    · simp only [hC, if_false]
      cases hq : getQueuedJobs st with
      | nil => simp
      | cons next rest =>
        simp only []
        rw [updateJobStatus_eq_jobUpd]
        exact activeCount_jobUpd_le_succ _ _ _ hwf

/-! ## Concrete stores used by the witnesses -/

/-- A store holding one queued URL job, created at time 10. -/
def stA : Store :=
  (createJob .youtube (some "https://example.com/a") none "job-a" 10 []).2

/-- The job held by `stA`. -/
def jobA : Job :=
  (createJob .youtube (some "https://example.com/a") none "job-a" 10 []).1

/-- `stA` plus a second queued job created earlier (time 5). -/
def stAB : Store :=
  (createJob .tiktok (some "https://example.com/b") none "job-b" 5 stA).2

/-- The job added by `stAB`. -/
def jobB : Job :=
  (createJob .tiktok (some "https://example.com/b") none "job-b" 5 stA).1

theorem processing_never_exceeds_limit_witness :
    getActiveJobCount
      (runOps 1 true stAB
        [SchedOp.start 20, SchedOp.start 21, SchedOp.completeJob 22]) ≤ 1 :=
  (processing_never_exceeds_limit 1 true stAB (by decide) (by decide)).1
    [SchedOp.start 20, SchedOp.start 21, SchedOp.completeJob 22]

/-! ## Claim C3 -/

theorem getQueuedJobs_mem (st : Store) (x : Job) (hx : x ∈ getQueuedJobs st) :
    x ∈ st ∧ x.status = .queued := by
  unfold getQueuedJobs at hx
  rw [mem_sortByCreated] at hx
  have h := List.mem_filter.mp hx
  exact ⟨h.1, by simpa using h.2⟩

theorem completedConsistent_none (j : Job) (h : completedConsistent j)
    (hs : ¬ (j.status = .complete ∨ j.status = .error)) :
    j.completedAt = none :=
  not_ne_iff.mp (fun hne => hs (h.mp hne))

theorem applyOp_consistent (C : Nat) (cbSet : Bool) (st : Store)
    (op : SchedOp) (hwf : WellFormed st) (hcons : StoreConsistent st) :
    StoreConsistent (applyOp C cbSet st op) := by
  cases op with
  | create p u f id now =>
    simp only [applyOp, createJob]
    intro j' hj'
    cases hm : st.any (fun k => k.jobId = id) with
    | true =>
      rw [storeSet_of_mem _ _ (by simpa using hm)] at hj'
      rcases mem_jobUpd _ _ _ _ hj' with ⟨j, hj, hcase⟩
      rcases hcase with ⟨_, heq⟩ | ⟨_, heq⟩
      · rw [heq]
        simp [completedConsistent]
      · rw [heq]
        exact hcons j hj
    | false =>
      rw [storeSet_of_not_mem _ _ (by simpa using hm)] at hj'
      rcases List.mem_append.mp hj' with hj | hj
      · exact hcons j' hj
      · simp only [List.mem_singleton] at hj
        rw [hj]
        simp [completedConsistent]
  | start now =>
    simp only [applyOp]
    unfold tryStartNext
    by_cases hC : getActiveJobCount st ≥ C
    · simpa [hC] using hcons
    · simp only [hC, if_false]
      cases hq : getQueuedJobs st with
      | nil => exact hcons
      | cons next rest =>
        simp only []
        have hnext : next ∈ st ∧ next.status = .queued :=
          getQueuedJobs_mem st next (hq ▸ List.mem_cons_self next rest)
        rw [updateJobStatus_eq_jobUpd]
        refine storeConsistent_jobUpd _ _ _ hcons ?_
        intro j hj hid hcc
        have hjn : j = next :=
          wellFormed_unique st hwf j next hj hnext.1 (by rw [hid])
        have hnone : j.completedAt = none :=
          completedConsistent_none j hcc (by rw [hjn, hnext.2]; simp)
        simp [completedConsistent, hnone]
  | completeJob now =>
    simp only [applyOp, onJobComplete]
    unfold tryStartNext
    by_cases hC : getActiveJobCount st ≥ C
    · simpa [hC] using hcons
    · simp only [hC, if_false]
      cases hq : getQueuedJobs st with
      | nil => exact hcons
      | cons next rest =>
        simp only []
        have hnext : next ∈ st ∧ next.status = .queued :=
          getQueuedJobs_mem st next (hq ▸ List.mem_cons_self next rest)
        rw [updateJobStatus_eq_jobUpd]
        refine storeConsistent_jobUpd _ _ _ hcons ?_
        intro j hj hid hcc
        have hjn : j = next :=
          wellFormed_unique st hwf j next hj hnext.1 (by rw [hid])
        have hnone : j.completedAt = none :=
          completedConsistent_none j hcc (by rw [hjn, hnext.2]; simp)
        simp [completedConsistent, hnone]
  | cancel id now =>
    simp only [applyOp]
    cases hg : getJob id st with
    | none => simp only [cancelJob, hg]; exact hcons
    | some job =>
      simp only [cancelJob, hg]
      by_cases hs : job.status = .queued
      · simp only [hs, if_true]
        have hmem := getJob_some id st job hg
        rw [updateJobStatus_eq_jobUpd]
        refine storeConsistent_jobUpd _ _ _ hcons ?_
        intro j hj hid hcc
        have hjn : j = job :=
          wellFormed_unique st hwf j job hj hmem.1 (by rw [hid, hmem.2])
        have hnone : j.completedAt = none :=
          completedConsistent_none j hcc (by rw [hjn, hs]; simp)
        simp [completedConsistent, hnone]
      · simp only [hs, if_false]
        exact hcons
  | finish id now =>
    simp only [applyOp]
    rw [updateJobStatus_eq_jobUpd]
    refine storeConsistent_jobUpd _ _ _ hcons ?_
    intro j _ _ _
    simp [completedConsistent]
  | fail id e now =>
    simp only [applyOp]
    rw [setJobError_eq_jobUpd]
    refine storeConsistent_jobUpd _ _ _ hcons ?_
    intro j _ _ _
    simp [completedConsistent]

theorem runOps_consistent (C : Nat) (cbSet : Bool) (ops : List SchedOp) :
    ∀ st : Store, WellFormed st → StoreConsistent st →
      StoreConsistent (runOps C cbSet st ops) := by
  induction ops with
  | nil => exact fun st _ h => h
  | cons op rest ih =>
    intro st hwf hcons
    exact ih _ (applyOp_wellFormed C cbSet st op hwf)
      (applyOp_consistent C cbSet st op hwf hcons)

/-- **C3 (amended)**: on a well-formed store that is consistent, every
sequence of the lifecycle operations keeps, for every job,
`completedAt ≠ null` *iff* its status is `complete` or `error`; queued,
processing **and cancelled** jobs all have `completedAt = null`
(`updateJobStatus` only stamps `completedAt` for `complete`/`error`, and
`cancelJob` goes through `updateJobStatus`). -/
theorem completedAt_iff_complete_or_error (C : Nat) (cbSet : Bool)
    (st : Store) (ops : List SchedOp) (hwf : WellFormed st)
    (hcons : StoreConsistent st) :
    (∀ j ∈ runOps C cbSet st ops,
      j.completedAt ≠ none ↔ (j.status = .complete ∨ j.status = .error)) ∧
    (∀ j ∈ runOps C cbSet st ops,
      (j.status = .queued ∨ j.status = .processing ∨ j.status = .cancelled) →
        j.completedAt = none) := by
  have h := runOps_consistent C cbSet ops st hwf hcons
  refine ⟨h, fun j hj hs => completedConsistent_none j (h j hj) ?_⟩
  rcases hs with hs | hs | hs <;> simp [hs]

/-- The store obtained by creating one job and cancelling it. -/
def cexCancelStore : Store :=
  (cancelJob "job-a" 99
    (createJob .youtube (some "https://example.com/a") none "job-a" 0 []).2).2

/-- **C3 counterexample**: the claim as stated — `completedAt` set iff
status ∈ {complete, error, cancelled} — is false: cancelling the queued
job `job-a` leaves `completedAt = null` while its status is `cancelled`. -/
theorem completedAt_iff_cex :
    ¬ (∀ j ∈ cexCancelStore,
        j.completedAt ≠ none ↔
          (j.status = .complete ∨ j.status = .error ∨
            j.status = .cancelled)) := by
  decide

theorem completedAt_iff_complete_or_error_witness :
    ({ jobA with status := JobStatus.cancelled } : Job).completedAt = none :=
  (completedAt_iff_complete_or_error 2 true stAB
    [SchedOp.start 20, SchedOp.cancel "job-a" 21] (by decide)
    (by simp only [StoreConsistent, completedConsistent]; decide)).2
    { jobA with status := JobStatus.cancelled } (by decide) (by decide)

/-! ## Claims C6 and C7 -/

theorem getJob_of_mem (st : Store) (hwf : WellFormed st) (j : Job)
    (hj : j ∈ st) : getJob j.jobId st = some j := by
  cases hfind : getJob j.jobId st with
  | some k =>
    have hk := getJob_some _ _ _ hfind
    rw [wellFormed_unique st hwf k j hk.1 hj hk.2]
  | none =>
    exfalso
    have := List.find?_eq_none.mp hfind j hj
    simp at this

/-- **C6**: `tryStartNext` is a no-op when the processing count has
reached `C` or no job is queued; otherwise it moves exactly the head of
`getQueuedJobs` — a queued job of minimal `createdAt`, the earliest-
inserted among the minima — to `processing`, and hands exactly that job's
id to the registered callback (recorded, not awaited: the resulting store
does not depend on the callback's behaviour). -/
theorem tryStartNext_correct (C : Nat) (cbSet : Bool) (now : Nat)
    (st : Store) :
    (C ≤ getActiveJobCount st → tryStartNext C cbSet now st = (st, none)) ∧
    (getQueuedJobs st = [] → tryStartNext C cbSet now st = (st, none)) ∧
    (∀ j js, getActiveJobCount st < C → getQueuedJobs st = j :: js →
      tryStartNext C cbSet now st =
        (updateJobStatus j.jobId .processing now st,
          if cbSet then some j.jobId else none) ∧
      j ∈ st ∧ j.status = .queued ∧
      (∀ k ∈ st, k.status = .queued → j.createdAt ≤ k.createdAt) ∧
      (∃ pre post,
        st.filter (fun k => k.status = .queued) = pre ++ j :: post ∧
        ∀ k ∈ pre, j.createdAt < k.createdAt)) := by
  refine ⟨?_, ?_, ?_⟩
  · intro hC
    unfold tryStartNext
    simp [hC]
  · intro hq
    unfold tryStartNext
    by_cases hC : getActiveJobCount st ≥ C
    · simp [hC]
    · simp [hC, hq]
  · intro j js hlt hq
    have hCfalse : ¬ getActiveJobCount st ≥ C := Nat.not_le.mpr hlt
    have hmin : firstMinByCreated (st.filter (fun k => k.status = .queued)) =
        some j := by
      rw [← head?_sortByCreated]
      have : sortByCreated (st.filter (fun k => k.status = .queued)) =
          j :: js := hq
      rw [this]
      rfl
    have hmem := getQueuedJobs_mem st j (hq ▸ List.mem_cons_self j js)
    refine ⟨?_, hmem.1, hmem.2, ?_, ?_⟩
    · unfold tryStartNext
      simp [hCfalse, hq]
    · intro k hk hkq
      exact firstMinByCreated_le _ j hmin k
        (List.mem_filter.mpr ⟨hk, by simp [hkq]⟩)
    · exact firstMinByCreated_decomp _ j hmin

theorem tryStartNext_correct_witness :
    tryStartNext 2 true 50 stAB =
      (updateJobStatus jobB.jobId .processing 50 stAB,
        if true then some jobB.jobId else none) :=
  ((tryStartNext_correct 2 true 50 stAB).2.2 jobB [jobA] (by decide)
    (by decide)).1

theorem getJob_updateJobStatus_self (id : String) (v : JobStatus)
    (now : Nat) (st : Store) :
    getJob id (updateJobStatus id v now st) =
      (getJob id st).map (fun j =>
        { j with
          status := v
          completedAt :=
            if v = .complete ∨ v = .error then some now
            else j.completedAt }) := by
  rw [updateJobStatus_eq_jobUpd]
  exact getJob_jobUpd_self id _ st (fun k hk => hk)

theorem getJob_updateJobStage_self (id : String) (stg : StageName)
    (v : StageStatus) (st : Store) :
    getJob id (updateJobStage id stg v st) =
      (getJob id st).map (fun j => { j with stages := j.stages.set stg v }) := by
  rw [updateJobStage_eq_jobUpd]
  exact getJob_jobUpd_self id _ st (fun k hk => hk)

theorem getJob_setJobMetadata_self (id : String) (m : Metadata) (st : Store) :
    getJob id (setJobMetadata id m st) =
      (getJob id st).map (fun j => { j with metadata := some m }) := by
  rw [setJobMetadata_eq_jobUpd]
  exact getJob_jobUpd_self id _ st (fun k hk => hk)

theorem getJob_setJobTranscription_self (id : String) (t : Transcription)
    (st : Store) :
    getJob id (setJobTranscription id t st) =
      (getJob id st).map (fun j => { j with transcription := some t }) := by
  rw [setJobTranscription_eq_jobUpd]
  exact getJob_jobUpd_self id _ st (fun k hk => hk)

theorem getJob_setJobVisualAnalysis_self (id : String) (v : VisualAnalysis)
    (st : Store) :
    getJob id (setJobVisualAnalysis id v st) =
      (getJob id st).map (fun j => { j with visualAnalysis := some v }) := by
  rw [setJobVisualAnalysis_eq_jobUpd]
  exact getJob_jobUpd_self id _ st (fun k hk => hk)

theorem getJob_setJobScript_self (id : String) (sc : String) (st : Store) :
    getJob id (setJobScript id sc st) =
      (getJob id st).map (fun j => { j with script := some sc }) := by
  rw [setJobScript_eq_jobUpd]
  exact getJob_jobUpd_self id _ st (fun k hk => hk)

theorem getJob_setJobError_self (id : String) (e : JobError) (now : Nat)
    (st : Store) :
    getJob id (setJobError id e now st) =
      (getJob id st).map (fun j =>
        { j with error := some e, status := .error, completedAt := some now }) := by
  rw [setJobError_eq_jobUpd]
  exact getJob_jobUpd_self id _ st (fun k hk => hk)

theorem getJob_setJobStageError_self (id stage msg : String) (st : Store) :
    getJob id (setJobStageError id stage msg st) =
      (getJob id st).map (fun j =>
        { j with stageErrors :=
            if j.stageErrors.any (fun p => p.1 = stage) then
              j.stageErrors.map (fun p => if p.1 = stage then (stage, msg) else p)
            else j.stageErrors ++ [(stage, msg)] }) := by
  rw [setJobStageError_eq_jobUpd]
  exact getJob_jobUpd_self id _ st (fun k hk => hk)

/-- **C7**: `cancelJob` succeeds exactly on an existing `queued` job, in
which case it transitions that job (and nothing else) to `cancelled`; on
a `processing`, terminal or unknown job it returns `false` and leaves the
store untouched. -/
theorem cancelJob_correct (id : String) (now : Nat) (st : Store) :
    ((cancelJob id now st).1 = true ↔
      ∃ j, getJob id st = some j ∧ j.status = .queued) ∧
    ((cancelJob id now st).1 = false → (cancelJob id now st).2 = st) ∧
    (∀ j, getJob id st = some j → j.status = .queued →
      (cancelJob id now st).2 = updateJobStatus id .cancelled now st ∧
      getJob id (cancelJob id now st).2 =
        some { j with status := .cancelled }) := by
  cases hg : getJob id st with
  | none =>
    simp only [cancelJob, hg]
    refine ⟨by simp, by intro h; trivial, ?_⟩
    intro j hj
    exact absurd hj (by simp)
  | some job =>
    by_cases hs : job.status = .queued
    · simp only [cancelJob, hg, hs, if_true]
      refine ⟨by simp [hg, hs], by simp, ?_⟩
      intro j hj hjs
      have hjj : j = job := by
        cases hj
        rfl
      subst hjj
      refine ⟨trivial, ?_⟩
      rw [getJob_updateJobStatus_self, hg]
      simp
    · simp only [cancelJob, hg, hs, if_false]
      refine ⟨?_, by intro h; trivial, ?_⟩
      · refine iff_of_false (by simp) ?_
        rintro ⟨j, hj, hjs⟩
        cases hj
        exact hs hjs
      · intro j hj hjs
        cases hj
        exact absurd hjs hs

theorem cancelJob_correct_witness :
    (cancelJob "job-b" 7 stAB).2 = updateJobStatus "job-b" .cancelled 7 stAB ∧
    getJob "job-b" (cancelJob "job-b" 7 stAB).2 =
      some { jobB with status := .cancelled } := by
  have h := (cancelJob_correct "job-b" 7 stAB).2.2 jobB (by decide) (by decide)
  exact ⟨h.1, by rw [h.2]⟩

/-! ## Claim C8 -/

theorem cleanExpiredJobs_fst (now : Nat) (st : Store) :
    (cleanExpiredJobs now st).1 = st.filter (fun j => !(isExpired now j)) := by
  induction st with
  | nil => rfl
  | cons j js ih =>
    simp only [cleanExpiredJobs]
    rcases hrec : cleanExpiredJobs now js with ⟨rest, n⟩
    rw [hrec] at ih
    have ih' : rest = js.filter (fun j => !(isExpired now j)) := by
      simpa using ih
    cases hx : isExpired now j with
    | true => simp [hx, ih']
    | false => simp [hx, ih']

theorem cleanExpiredJobs_snd (now : Nat) (st : Store) :
    (cleanExpiredJobs now st).2 =
      (st.filter (fun j => isExpired now j)).length := by
  induction st with
  | nil => rfl
  | cons j js ih =>
    simp only [cleanExpiredJobs]
    rcases hrec : cleanExpiredJobs now js with ⟨rest, n⟩
    rw [hrec] at ih
    have ih' : n = (js.filter (fun j => isExpired now j)).length := by
      simpa using ih
    cases hx : isExpired now j with
    | true => simp [hx, ih']
    | false => simp [hx, ih']

/-- **C8**: one sweep keeps exactly the jobs that are not (terminal and
strictly older than `JOB_EXPIRY_MS`), and returns the number removed.  A
terminal job created at `T` survives a sweep at `T + expiry − 1` and is
gone after a sweep at `T + expiry + 1`; a non-terminal job survives every
sweep. -/
theorem cleanExpiredJobs_correct (now : Nat) (st : Store) :
    (cleanExpiredJobs now st).1 = st.filter (fun j => !(isExpired now j)) ∧
    (cleanExpiredJobs now st).2 =
      (st.filter (fun j => isExpired now j)).length ∧
    (∀ j ∈ st,
      (j.status = .complete ∨ j.status = .error ∨ j.status = .cancelled) →
        j ∈ (cleanExpiredJobs (j.createdAt + JOB_EXPIRY_MS - 1) st).1) ∧
    (∀ j ∈ st,
      (j.status = .complete ∨ j.status = .error ∨ j.status = .cancelled) →
        j ∉ (cleanExpiredJobs (j.createdAt + JOB_EXPIRY_MS + 1) st).1) ∧
    (∀ j ∈ st,
      ¬ (j.status = .complete ∨ j.status = .error ∨ j.status = .cancelled) →
        j ∈ (cleanExpiredJobs now st).1) := by
  refine ⟨cleanExpiredJobs_fst now st, cleanExpiredJobs_snd now st, ?_, ?_, ?_⟩
  · intro j hj hterm
    rw [cleanExpiredJobs_fst]
    refine List.mem_filter.mpr ⟨hj, ?_⟩
    have : isExpired (j.createdAt + JOB_EXPIRY_MS - 1) j = false := by
      simp only [isExpired, JOB_EXPIRY_MS, decide_eq_false_iff_not]
      rintro ⟨-, hage⟩
      omega
    simp [this]
  · intro j hj hterm
    rw [cleanExpiredJobs_fst]
    intro hmem
    have hpred := (List.mem_filter.mp hmem).2
    have : isExpired (j.createdAt + JOB_EXPIRY_MS + 1) j = true := by
      simp only [isExpired, JOB_EXPIRY_MS, decide_eq_true_eq]
      exact ⟨by simpa [JOB_EXPIRY_MS] using hterm, by omega⟩
    rw [this] at hpred
    simp at hpred
  · intro j hj hterm
    rw [cleanExpiredJobs_fst]
    refine List.mem_filter.mpr ⟨hj, ?_⟩
    have : isExpired now j = false := by
      simp only [isExpired, decide_eq_false_iff_not]
      rintro ⟨h1, -⟩
      exact hterm h1
    simp [this]

/-- A finished job, for exercising the sweeper. -/
def jobDone : Job := { jobA with status := .complete, completedAt := some 40 }

theorem cleanExpiredJobs_correct_witness :
    jobDone ∈
      (cleanExpiredJobs (jobDone.createdAt + JOB_EXPIRY_MS - 1) [jobDone]).1 ∧
    jobDone ∉
      (cleanExpiredJobs (jobDone.createdAt + JOB_EXPIRY_MS + 1) [jobDone]).1 :=
  ⟨(cleanExpiredJobs_correct 0 [jobDone]).2.2.1 jobDone (by simp) (by decide),
   (cleanExpiredJobs_correct 0 [jobDone]).2.2.2.1 jobDone (by simp) (by decide)⟩

/-! ## Claim C10 -/

/-- Transitions available without the orchestrator ever running: everything
except the pipeline's terminal updates, and job creation only under fresh
UUIDs (never the watched id). -/
def SchedOnly (jid : String) : SchedOp → Bool
  | .create _ _ _ id _ => id ≠ jid
  | .start _ => true
  | .completeJob _ => true
  | .cancel _ _ => true
  | .finish _ _ => false
  | .fail _ _ _ => false

theorem getJob_updateJobStatus_ne (id id' : String) (v : JobStatus)
    (now : Nat) (st : Store) (hne : id' ≠ id) :
    getJob id' (updateJobStatus id v now st) = getJob id' st := by
  rw [updateJobStatus_eq_jobUpd]
  exact getJob_jobUpd_ne id id' _ st (fun k hk => hk) hne

theorem getJob_tryStartNext_preserved (C : Nat) (cbSet : Bool) (now : Nat)
    (st : Store) (jid : String) (k : Job) (hwf : WellFormed st)
    (hk : getJob jid st = some k) (hks : k.status ≠ .queued) :
    getJob jid (tryStartNext C cbSet now st).1 = some k := by
  unfold tryStartNext
  by_cases hC : getActiveJobCount st ≥ C
  · simp [hC, hk]
  · simp only [hC, if_false]
    cases hq : getQueuedJobs st with
    | nil => exact hk
    | cons next rest =>
      have hnext : next ∈ st ∧ next.status = .queued :=
        getQueuedJobs_mem st next (hq ▸ List.mem_cons_self next rest)
      have hne : jid ≠ next.jobId := by
        intro he
        have hkm := getJob_some jid st k hk
        have hkn : k = next :=
          wellFormed_unique st hwf k next hkm.1 hnext.1 (by rw [hkm.2, he])
        exact hks (by rw [hkn, hnext.2])
      simp only []
      rw [getJob_updateJobStatus_ne _ _ _ _ _ hne]
      exact hk

theorem getJob_applyOp_preserved (C : Nat) (cbSet : Bool) (st : Store)
    (op : SchedOp) (jid : String) (k : Job) (hwf : WellFormed st)
    (hop : SchedOnly jid op = true) (hk : getJob jid st = some k)
    (hkp : k.status = .processing) :
    getJob jid (applyOp C cbSet st op) = some k := by
  cases op with
  | create p u f id now =>
    have hne : id ≠ jid := by simpa [SchedOnly] using hop
    simp only [applyOp, createJob]
    rw [getJob_storeSet_ne _ _ _ (fun h => hne (by simpa using h.symm))]
    exact hk
  | start now =>
    simp only [applyOp]
    exact getJob_tryStartNext_preserved C cbSet now st jid k hwf hk
      (by rw [hkp]; simp)
  | completeJob now =>
    simp only [applyOp, onJobComplete]
    exact getJob_tryStartNext_preserved C cbSet now st jid k hwf hk
      (by rw [hkp]; simp)
  | cancel id now =>
    simp only [applyOp]
    cases hg : getJob id st with
    | none => simp only [cancelJob, hg]; exact hk
    | some job =>
      simp only [cancelJob, hg]
      by_cases hs : job.status = .queued
      · simp only [hs, if_true]
        have hne : jid ≠ id := by
          intro he
          rw [← he] at hg
          rw [hk] at hg
          cases hg
          rw [hkp] at hs
          cases hs
        rw [getJob_updateJobStatus_ne _ _ _ _ _ hne]
        exact hk
      · simp only [hs, if_false]
        exact hk
  | finish id now => simp [SchedOnly] at hop
  | fail id e now => simp [SchedOnly] at hop

theorem getJob_runOps_preserved (C : Nat) (cbSet : Bool) (jid : String)
    (ops : List SchedOp) :
    ∀ (st : Store) (k : Job), WellFormed st → getJob jid st = some k →
      k.status = .processing → (∀ op ∈ ops, SchedOnly jid op = true) →
      getJob jid (runOps C cbSet st ops) = some k := by
  induction ops with
  | nil => exact fun st k _ hk _ _ => hk
  | cons op rest ih =>
    intro st k hwf hk hkp hops
    exact ih _ k (applyOp_wellFormed C cbSet st op hwf)
      (getJob_applyOp_preserved C cbSet st op jid k hwf
        (hops op (List.mem_cons_self op rest)) hk hkp)
      hkp
      (fun o ho => hops o (List.mem_cons_of_mem op ho))

/-- **C10**: with no process callback registered, `tryStartNext` (given a
free slot and a non-empty queue) still moves the oldest queued job to
`processing` while invoking nothing; no pipeline ever runs for it, so
under every further callback-free sequence of scheduler operations the
job stays `processing` — its slot is never freed. -/
theorem tryStartNext_without_callback (C : Nat) (now : Nat) (st : Store)
    (j : Job) (js : List Job) (hwf : WellFormed st)
    (hlt : getActiveJobCount st < C) (hq : getQueuedJobs st = j :: js) :
    tryStartNext C false now st =
      (updateJobStatus j.jobId .processing now st, none) ∧
    getJob j.jobId (tryStartNext C false now st).1 =
      some { j with status := .processing } ∧
    (∀ ops : List SchedOp, (∀ op ∈ ops, SchedOnly j.jobId op = true) →
      getJob j.jobId (runOps C false (tryStartNext C false now st).1 ops) =
        some { j with status := .processing }) := by
  have hmem := getQueuedJobs_mem st j (hq ▸ List.mem_cons_self j js)
  have heq : tryStartNext C false now st =
      (updateJobStatus j.jobId .processing now st, none) := by
    unfold tryStartNext
    simp [Nat.not_le.mpr hlt, hq]
  have hget : getJob j.jobId (tryStartNext C false now st).1 =
      some { j with status := .processing } := by
    rw [heq]
    simp only []
    rw [getJob_updateJobStatus_self, getJob_of_mem st hwf j hmem.1]
    simp
  refine ⟨heq, hget, ?_⟩
  intro ops hops
  exact getJob_runOps_preserved C false j.jobId ops _ _
    (by rw [heq]; exact wellFormed_updateJobStatus _ _ _ _ hwf)
    hget rfl hops

theorem tryStartNext_without_callback_witness :
    getJob jobB.jobId
      (runOps 2 false (tryStartNext 2 false 50 stAB).1
        [SchedOp.start 60, SchedOp.cancel "job-b" 61,
         SchedOp.completeJob 62]) =
      some { jobB with status := .processing } :=
  (tryStartNext_without_callback 2 50 stAB jobB [jobA] (by decide) (by decide)
    (by decide)).2.2
    [SchedOp.start 60, SchedOp.cancel "job-b" 61, SchedOp.completeJob 62]
    (by decide)

/-! ## Claim C9 -/

/-- **C9 counterexample**: `createJob` itself performs no validation — it
accepts `(videoUrl, filePath) = (null, null)` and returns a job with both
fields null, so "exactly one non-null" does not hold for every input
`createJob` accepts. -/
theorem createJob_exactly_one_cex :
    (createJob .youtube none none "job-x" 0 []).1.videoUrl = none ∧
    (createJob .youtube none none "job-x" 0 []).1.filePath = none ∧
    ¬ ((createJob .youtube none none "job-x" 0 []).1.videoUrl.isSome ≠
        (createJob .youtube none none "job-x" 0 []).1.filePath.isSome) := by
  decide

/-- **C9 (amended)**: `createJob` stores its two source arguments verbatim
and does not validate them; the invariant "exactly one of
{videoUrl, filePath} non-null" holds precisely for the argument shapes the
two HTTP routes use — the URL route passes `(some url, none)` and the
upload route passes `(none, some path)` — not for every input `createJob`
accepts. -/
theorem createJob_exactly_one_at_routes (p : Platform) (id : String)
    (now : Nat) (st : Store) :
    (∀ u f : Option String, (createJob p u f id now st).1.videoUrl = u ∧
      (createJob p u f id now st).1.filePath = f) ∧
    (∀ url : String,
      (createJob p (some url) none id now st).1.videoUrl.isSome ≠
        (createJob p (some url) none id now st).1.filePath.isSome) ∧
    (∀ path : String,
      (createJob p none (some path) id now st).1.videoUrl.isSome ≠
        (createJob p none (some path) id now st).1.filePath.isSome) := by
  refine ⟨fun u f => ⟨rfl, rfl⟩, fun url => ?_, fun path => ?_⟩ <;> simp [createJob]

/-! ## Claim C1 -/

/-- **C1**: for a job present in the store, `processJob` reports
completion to the scheduler (`onJobComplete`) exactly once, whatever the
outcome of every stage — the `finally` block runs on the success path, the
download-failure path, the joint transcription+visual failure path and
the internal-throw path alike.  Only the early return for an unknown job
skips the notification. -/
theorem processJob_notifies_once (C : Nat) (cbSet : Bool) (env : Env)
    (jid : String) (st : Store) :
    (∀ job, getJob jid st = some job →
      (processJob C cbSet env jid st).2 = [jid]) ∧
    (getJob jid st = none → (processJob C cbSet env jid st).2 = []) := by
  constructor
  · intro job h
    simp only [processJob, h]
  · intro h
    simp only [processJob, h]

/-- A fully successful environment: download succeeds, audio exists,
three frames, transcription/visual/assembly all succeed. -/
def envOk : Env :=
  ⟨.ok ⟨"/tmp/v.mp4", "Video Title", 60⟩, 0, ⟨"/tmp/a.mp3", true, none⟩,
   .ok 3, .ok ⟨[], []⟩, .ok ⟨[], [], []⟩, .ok "SCRIPT", 123, "2026-02-03"⟩

/-- An environment in which transcription and visual analysis both fail. -/
def envBothFail : Env :=
  ⟨.ok ⟨"/tmp/v.mp4", "Video Title", 60⟩, 0, ⟨"/tmp/a.mp3", true, none⟩,
   .ok 3, .error "transcription boom", .error "visual boom", .ok "SCRIPT",
   123, "2026-02-03"⟩

/-- An environment in which only Claude-based assembly fails (the fallback
formatter must take over). -/
def envAsmFail : Env :=
  ⟨.ok ⟨"/tmp/v.mp4", "Video Title", 60⟩, 0, ⟨"/tmp/a.mp3", true, none⟩,
   .ok 3, .ok ⟨[⟨"Speaker A", "hello there", 1500, 2300⟩], ["Speaker A"]⟩,
   .ok ⟨[⟨900, "waves at the camera", [], none, none, none, .uncertain⟩],
        [], []⟩,
   .error "assembly boom", 123, "2026-02-03"⟩

theorem processJob_notifies_once_witness :
    (processJob 2 true envBothFail "job-a" stA).2 = ["job-a"] :=
  (processJob_notifies_once 2 true envBothFail "job-a" stA).1 jobA (by decide)

/-! ## Claims C4 and C5: the orchestrator's failure policy

Derived views of the environment, mirroring the local accumulator
variables of `processJob` (`transcriptionFailed`, `visualFailed`,
`dialogueEntries`, ...). -/

/-- Is an `Except` an `error`? -/
def exceptErr {ε α : Type} : Except ε α → Bool
  | .error _ => true
  | .ok _ => false

/-- `transcriptionFailed` as a function of the environment: transcription
is attempted only when audio exists, and fails iff the transcriber
throws. -/
def transcriptionFails (env : Env) : Bool :=
  env.audio.hasAudio && exceptErr env.transcriptionR

/-- `visualFailed` as a function of the environment: visual analysis is
attempted only when at least one frame was sampled. -/
def visualFails (env : Env) : Bool :=
  match env.framesR with
  | .ok n => decide (0 < n) && exceptErr env.visualR
  | .error _ => false

/-- The `dialogueEntries` accumulator after the fan-out. -/
def envDialogue (env : Env) : List DialogueEntry :=
  if env.audio.hasAudio then
    match env.transcriptionR with
    | .ok r => r.dialogueEntries
    | .error _ => []
  else []

/-- The `speakers` accumulator after the fan-out. -/
def envSpeakers (env : Env) : List String :=
  if env.audio.hasAudio then
    match env.transcriptionR with
    | .ok r => r.speakers
    | .error _ => []
  else []

/-- The `actionEntries` accumulator after the fan-out. -/
def envActions (env : Env) : List ActionEntry :=
  match env.framesR with
  | .ok n =>
    if 0 < n then
      match env.visualR with
      | .ok r => r.actionEntries
      | .error _ => []
    else []
  | .error _ => []

/-- The `characters` accumulator after the fan-out. -/
def envCharacters (env : Env) : List String :=
  match env.framesR with
  | .ok n =>
    if 0 < n then
      match env.visualR with
      | .ok r => r.characters
      | .error _ => []
    else []
  | .error _ => []

/-- The `scenes` accumulator after the fan-out. -/
def envScenes (env : Env) : List Scene :=
  match env.framesR with
  | .ok n =>
    if 0 < n then
      match env.visualR with
      | .ok r => r.scenes
      | .error _ => []
    else []
  | .error _ => []

/-- The script stage-4 stores: the assembler's output, or on an assembly
throw the fallback formatter applied to the accumulated data. -/
def envScript (env : Env) (job : Job) (title : String) (duration : Nat) :
    String :=
  match env.assemblyR with
  | .ok s => s
  | .error _ =>
    formatBasicScript
      { title := title
        duration := duration
        sourceUrl := jsOrElse job.videoUrl "File upload"
        platform := job.platform
        dialogueEntries := envDialogue env
        actionEntries := envActions env
        transcriptionFailed := transcriptionFails env
        visualFailed := visualFails env } env.today

/-- Stage 1 yields a video file: either the job was an upload, or it has
a URL and the downloader succeeds. -/
def VideoAvailable (env : Env) (job : Job) : Prop :=
  job.filePath.isSome = true ∨
  (job.filePath = none ∧ job.videoUrl.isSome = true ∧
    exceptErr env.download = false)

theorem wellFormed_updateJobStage (id : String) (stg : StageName)
    (v : StageStatus) (st : Store) (hwf : WellFormed st) :
    WellFormed (updateJobStage id stg v st) := by
  rw [updateJobStage_eq_jobUpd]
  exact wellFormed_jobUpd _ _ _ (fun j hj => hj) hwf

theorem wellFormed_setJobMetadata (id : String) (m : Metadata) (st : Store)
    (hwf : WellFormed st) : WellFormed (setJobMetadata id m st) := by
  rw [setJobMetadata_eq_jobUpd]
  exact wellFormed_jobUpd _ _ _ (fun j hj => hj) hwf

theorem wellFormed_setJobTranscription (id : String) (t : Transcription)
    (st : Store) (hwf : WellFormed st) :
    WellFormed (setJobTranscription id t st) := by
  rw [setJobTranscription_eq_jobUpd]
  exact wellFormed_jobUpd _ _ _ (fun j hj => hj) hwf

theorem wellFormed_setJobVisualAnalysis (id : String) (v : VisualAnalysis)
    (st : Store) (hwf : WellFormed st) :
    WellFormed (setJobVisualAnalysis id v st) := by
  rw [setJobVisualAnalysis_eq_jobUpd]
  exact wellFormed_jobUpd _ _ _ (fun j hj => hj) hwf

theorem wellFormed_setJobScript (id sc : String) (st : Store)
    (hwf : WellFormed st) : WellFormed (setJobScript id sc st) := by
  rw [setJobScript_eq_jobUpd]
  exact wellFormed_jobUpd _ _ _ (fun j hj => hj) hwf

theorem wellFormed_setJobError (id : String) (e : JobError) (now : Nat)
    (st : Store) (hwf : WellFormed st) :
    WellFormed (setJobError id e now st) := by
  rw [setJobError_eq_jobUpd]
  exact wellFormed_jobUpd _ _ _ (fun j hj => hj) hwf

theorem wellFormed_setJobStageError (id stage msg : String) (st : Store)
    (hwf : WellFormed st) : WellFormed (setJobStageError id stage msg st) := by
  rw [setJobStageError_eq_jobUpd]
  exact wellFormed_jobUpd _ _ _ (fun j hj => hj) hwf

theorem pad_bothFail (env : Env) (jid : String) (job : Job) (title : String)
    (duration : Nat) (st : Store) (n : Nat) (et ev : String) (jcur : Job)
    (hwf : WellFormed st)
    (hfr : env.framesR = .ok n) (hn : 0 < n)
    (ha : env.audio.hasAudio = true)
    (ht : env.transcriptionR = .error et)
    (hv : env.visualR = .error ev)
    (hj : getJob jid st = some jcur) :
    (pipelineAfterDownload env jid job title duration st).2 =
      some "Both transcription and visual analysis failed" ∧
    WellFormed (pipelineAfterDownload env jid job title duration st).1 ∧
    ∃ j',
      getJob jid (pipelineAfterDownload env jid job title duration st).1 =
        some j' ∧
      j'.jobId = jcur.jobId ∧ j'.status = jcur.status ∧
      j'.error = jcur.error ∧ j'.script = jcur.script ∧
      j'.stages.assembly = jcur.stages.assembly := by
  have hstore : pipelineAfterDownload env jid job title duration st =
      (setJobStageError jid "visual" ev
        (updateJobStage jid .visual .error
          (setJobStageError jid "transcription" et
            (updateJobStage jid .transcription .error
              (updateJobStage jid .visual .in_progress
                (updateJobStage jid .transcription .in_progress
                  (setJobMetadata jid ⟨title, duration, job.videoUrl⟩ st)))))),
       some "Both transcription and visual analysis failed") := by
    simp [pipelineAfterDownload, hfr, ha, ht, hv, hn]
  rw [hstore]
  refine ⟨rfl, ?_, ?_⟩
  · apply wellFormed_setJobStageError
    apply wellFormed_updateJobStage
    apply wellFormed_setJobStageError
    apply wellFormed_updateJobStage
    apply wellFormed_updateJobStage
    apply wellFormed_updateJobStage
    apply wellFormed_setJobMetadata
    exact hwf
  · simp only [getJob_setJobStageError_self, getJob_updateJobStage_self,
      getJob_setJobMetadata_self, hj, Option.map_some']
    refine ⟨_, rfl, ?_⟩
    refine ⟨rfl, rfl, rfl, rfl, ?_⟩
    simp [Stages.set]

theorem pad_success (env : Env) (jid : String) (job : Job) (title : String)
    (duration : Nat) (st : Store) (n : Nat) (jcur : Job)
    (hwf : WellFormed st)
    (hfr : env.framesR = .ok n)
    (hnb : ¬ (transcriptionFails env = true ∧ visualFails env = true))
    (hj : getJob jid st = some jcur) :
    (pipelineAfterDownload env jid job title duration st).2 = none ∧
    WellFormed (pipelineAfterDownload env jid job title duration st).1 ∧
    ∃ j',
      getJob jid (pipelineAfterDownload env jid job title duration st).1 =
        some j' ∧
      j'.jobId = jcur.jobId ∧
      j'.status = .complete ∧
      j'.stages.assembly = .complete ∧
      j'.completedAt = some env.now ∧
      j'.script = some (envScript env job title duration) ∧
      j'.transcription = some ⟨envDialogue env, envSpeakers env⟩ ∧
      j'.visualAnalysis =
        some ⟨envActions env, envCharacters env, envScenes env⟩ := by
  by_cases ha : env.audio.hasAudio = true
  · cases ht : env.transcriptionR with
    | ok tr =>
      by_cases hn : 0 < n
      · cases hv : env.visualR with
        | ok vr =>
          have hstore : pipelineAfterDownload env jid job title duration st =
              (updateJobStatus jid .complete env.now
                (updateJobStage jid .assembly .complete
                  (setJobScript jid
                    (match env.assemblyR with
                     | .ok s => s
                     | .error _ =>
                       formatBasicScript
                         ⟨title, duration, jsOrElse job.videoUrl "File upload", job.platform, tr.dialogueEntries, vr.actionEntries, false, false⟩
                         env.today)
                    (updateJobStage jid .assembly .in_progress
                      (setJobVisualAnalysis jid ⟨vr.actionEntries, vr.characters, vr.scenes⟩
                        (setJobTranscription jid ⟨tr.dialogueEntries, tr.speakers⟩
                          (updateJobStage jid .visual .complete
                  (updateJobStage jid .transcription .complete
                    (updateJobStage jid .visual .in_progress
                      (updateJobStage jid .transcription .in_progress
                        (setJobMetadata jid ⟨title, duration, job.videoUrl⟩ st)))))))))),
               none) := by
            simp [pipelineAfterDownload, hfr, ha, ht, hn, hv]
          rw [hstore]
          refine ⟨rfl, ?_, ?_⟩
          · repeat
              first
              | apply wellFormed_updateJobStatus
              | apply wellFormed_updateJobStage
              | apply wellFormed_setJobScript
              | apply wellFormed_setJobVisualAnalysis
              | apply wellFormed_setJobTranscription
              | apply wellFormed_setJobStageError
              | apply wellFormed_setJobMetadata
            exact hwf
          · simp only [getJob_updateJobStatus_self, getJob_updateJobStage_self,
              getJob_setJobScript_self, getJob_setJobVisualAnalysis_self,
              getJob_setJobTranscription_self, getJob_setJobStageError_self,
              getJob_setJobMetadata_self, hj, Option.map_some']
            refine ⟨_, rfl, ?_⟩
            simp [Stages.set, envScript, envDialogue, envSpeakers, envActions,
              envCharacters, envScenes, transcriptionFails, visualFails,
              exceptErr, hfr, ha, ht, hn, hv]
        | error ev =>
          have hstore : pipelineAfterDownload env jid job title duration st =
              (updateJobStatus jid .complete env.now
                (updateJobStage jid .assembly .complete
                  (setJobScript jid
                    (match env.assemblyR with
                     | .ok s => s
                     | .error _ =>
                       formatBasicScript
                         ⟨title, duration, jsOrElse job.videoUrl "File upload", job.platform, tr.dialogueEntries, [], false, true⟩
                         env.today)
                    (updateJobStage jid .assembly .in_progress
                      (setJobVisualAnalysis jid ⟨[], [], []⟩
                        (setJobTranscription jid ⟨tr.dialogueEntries, tr.speakers⟩
                          (setJobStageError jid "visual" ev
                  (updateJobStage jid .visual .error
                    (updateJobStage jid .transcription .complete
                    (updateJobStage jid .visual .in_progress
                      (updateJobStage jid .transcription .in_progress
                        (setJobMetadata jid ⟨title, duration, job.videoUrl⟩ st))))))))))),
               none) := by
            simp [pipelineAfterDownload, hfr, ha, ht, hn, hv]
          rw [hstore]
          refine ⟨rfl, ?_, ?_⟩
          · repeat
              first
              | apply wellFormed_updateJobStatus
              | apply wellFormed_updateJobStage
              | apply wellFormed_setJobScript
              | apply wellFormed_setJobVisualAnalysis
              | apply wellFormed_setJobTranscription
              | apply wellFormed_setJobStageError
              | apply wellFormed_setJobMetadata
            exact hwf
          · simp only [getJob_updateJobStatus_self, getJob_updateJobStage_self,
              getJob_setJobScript_self, getJob_setJobVisualAnalysis_self,
              getJob_setJobTranscription_self, getJob_setJobStageError_self,
              getJob_setJobMetadata_self, hj, Option.map_some']
            refine ⟨_, rfl, ?_⟩
            simp [Stages.set, envScript, envDialogue, envSpeakers, envActions,
              envCharacters, envScenes, transcriptionFails, visualFails,
              exceptErr, hfr, ha, ht, hn, hv]
      ·
        have hstore : pipelineAfterDownload env jid job title duration st =
            (updateJobStatus jid .complete env.now
              (updateJobStage jid .assembly .complete
                (setJobScript jid
                  (match env.assemblyR with
                   | .ok s => s
                   | .error _ =>
                     formatBasicScript
                       ⟨title, duration, jsOrElse job.videoUrl "File upload", job.platform, tr.dialogueEntries, [], false, false⟩
                       env.today)
                  (updateJobStage jid .assembly .in_progress
                    (setJobVisualAnalysis jid ⟨[], [], []⟩
                      (setJobTranscription jid ⟨tr.dialogueEntries, tr.speakers⟩
                        (updateJobStage jid .visual .skipped
                (updateJobStage jid .transcription .complete
                  (updateJobStage jid .visual .in_progress
                    (updateJobStage jid .transcription .in_progress
                      (setJobMetadata jid ⟨title, duration, job.videoUrl⟩ st)))))))))),
             none) := by
          simp [pipelineAfterDownload, hfr, ha, ht, hn]
        rw [hstore]
        refine ⟨rfl, ?_, ?_⟩
        · repeat
            first
            | apply wellFormed_updateJobStatus
            | apply wellFormed_updateJobStage
            | apply wellFormed_setJobScript
            | apply wellFormed_setJobVisualAnalysis
            | apply wellFormed_setJobTranscription
            | apply wellFormed_setJobStageError
            | apply wellFormed_setJobMetadata
          exact hwf
        · simp only [getJob_updateJobStatus_self, getJob_updateJobStage_self,
            getJob_setJobScript_self, getJob_setJobVisualAnalysis_self,
            getJob_setJobTranscription_self, getJob_setJobStageError_self,
            getJob_setJobMetadata_self, hj, Option.map_some']
          refine ⟨_, rfl, ?_⟩
          simp [Stages.set, envScript, envDialogue, envSpeakers, envActions,
            envCharacters, envScenes, transcriptionFails, visualFails,
            exceptErr, hfr, ha, ht, hn]
    | error et =>
      by_cases hn : 0 < n
      · cases hv : env.visualR with
        | ok vr =>
          have hstore : pipelineAfterDownload env jid job title duration st =
              (updateJobStatus jid .complete env.now
                (updateJobStage jid .assembly .complete
                  (setJobScript jid
                    (match env.assemblyR with
                     | .ok s => s
                     | .error _ =>
                       formatBasicScript
                         ⟨title, duration, jsOrElse job.videoUrl "File upload", job.platform, [], vr.actionEntries, true, false⟩
                         env.today)
                    (updateJobStage jid .assembly .in_progress
                      (setJobVisualAnalysis jid ⟨vr.actionEntries, vr.characters, vr.scenes⟩
                        (setJobTranscription jid ⟨[], []⟩
                          (updateJobStage jid .visual .complete
                  (setJobStageError jid "transcription" et
                    (updateJobStage jid .transcription .error
                      (updateJobStage jid .visual .in_progress
                      (updateJobStage jid .transcription .in_progress
                        (setJobMetadata jid ⟨title, duration, job.videoUrl⟩ st))))))))))),
               none) := by
            simp [pipelineAfterDownload, hfr, ha, ht, hn, hv]
          rw [hstore]
          refine ⟨rfl, ?_, ?_⟩
          · repeat
              first
              | apply wellFormed_updateJobStatus
              | apply wellFormed_updateJobStage
              | apply wellFormed_setJobScript
              | apply wellFormed_setJobVisualAnalysis
              | apply wellFormed_setJobTranscription
              | apply wellFormed_setJobStageError
              | apply wellFormed_setJobMetadata
            exact hwf
          · simp only [getJob_updateJobStatus_self, getJob_updateJobStage_self,
              getJob_setJobScript_self, getJob_setJobVisualAnalysis_self,
              getJob_setJobTranscription_self, getJob_setJobStageError_self,
              getJob_setJobMetadata_self, hj, Option.map_some']
            refine ⟨_, rfl, ?_⟩
            simp [Stages.set, envScript, envDialogue, envSpeakers, envActions,
              envCharacters, envScenes, transcriptionFails, visualFails,
              exceptErr, hfr, ha, ht, hn, hv]
        | error ev =>
          exact absurd
            ⟨by simp [transcriptionFails, exceptErr, ha, ht],
             by simp [visualFails, exceptErr, hfr, hn, hv]⟩ hnb
      ·
        have hstore : pipelineAfterDownload env jid job title duration st =
            (updateJobStatus jid .complete env.now
              (updateJobStage jid .assembly .complete
                (setJobScript jid
                  (match env.assemblyR with
                   | .ok s => s
                   | .error _ =>
                     formatBasicScript
                       ⟨title, duration, jsOrElse job.videoUrl "File upload", job.platform, [], [], true, false⟩
                       env.today)
                  (updateJobStage jid .assembly .in_progress
                    (setJobVisualAnalysis jid ⟨[], [], []⟩
                      (setJobTranscription jid ⟨[], []⟩
                        (updateJobStage jid .visual .skipped
                (setJobStageError jid "transcription" et
                  (updateJobStage jid .transcription .error
                    (updateJobStage jid .visual .in_progress
                    (updateJobStage jid .transcription .in_progress
                      (setJobMetadata jid ⟨title, duration, job.videoUrl⟩ st))))))))))),
             none) := by
          simp [pipelineAfterDownload, hfr, ha, ht, hn]
        rw [hstore]
        refine ⟨rfl, ?_, ?_⟩
        · repeat
            first
            | apply wellFormed_updateJobStatus
            | apply wellFormed_updateJobStage
            | apply wellFormed_setJobScript
            | apply wellFormed_setJobVisualAnalysis
            | apply wellFormed_setJobTranscription
            | apply wellFormed_setJobStageError
            | apply wellFormed_setJobMetadata
          exact hwf
        · simp only [getJob_updateJobStatus_self, getJob_updateJobStage_self,
            getJob_setJobScript_self, getJob_setJobVisualAnalysis_self,
            getJob_setJobTranscription_self, getJob_setJobStageError_self,
            getJob_setJobMetadata_self, hj, Option.map_some']
          refine ⟨_, rfl, ?_⟩
          simp [Stages.set, envScript, envDialogue, envSpeakers, envActions,
            envCharacters, envScenes, transcriptionFails, visualFails,
            exceptErr, hfr, ha, ht, hn]
  · by_cases hn : 0 < n
    · cases hv : env.visualR with
      | ok vr =>
        have hstore : pipelineAfterDownload env jid job title duration st =
            (updateJobStatus jid .complete env.now
              (updateJobStage jid .assembly .complete
                (setJobScript jid
                  (match env.assemblyR with
                   | .ok s => s
                   | .error _ =>
                     formatBasicScript
                       ⟨title, duration, jsOrElse job.videoUrl "File upload", job.platform, [], vr.actionEntries, false, false⟩
                       env.today)
                  (updateJobStage jid .assembly .in_progress
                    (setJobVisualAnalysis jid ⟨vr.actionEntries, vr.characters, vr.scenes⟩
                      (setJobTranscription jid ⟨[], []⟩
                        (updateJobStage jid .visual .complete
                (updateJobStage jid .transcription .skipped
                  (updateJobStage jid .visual .in_progress
                    (updateJobStage jid .transcription .in_progress
                      (setJobMetadata jid ⟨title, duration, job.videoUrl⟩ st)))))))))),
             none) := by
          simp [pipelineAfterDownload, hfr, ha, hn, hv]
        rw [hstore]
        refine ⟨rfl, ?_, ?_⟩
        · repeat
            first
            | apply wellFormed_updateJobStatus
            | apply wellFormed_updateJobStage
            | apply wellFormed_setJobScript
            | apply wellFormed_setJobVisualAnalysis
            | apply wellFormed_setJobTranscription
            | apply wellFormed_setJobStageError
            | apply wellFormed_setJobMetadata
          exact hwf
        · simp only [getJob_updateJobStatus_self, getJob_updateJobStage_self,
            getJob_setJobScript_self, getJob_setJobVisualAnalysis_self,
            getJob_setJobTranscription_self, getJob_setJobStageError_self,
            getJob_setJobMetadata_self, hj, Option.map_some']
          refine ⟨_, rfl, ?_⟩
          simp [Stages.set, envScript, envDialogue, envSpeakers, envActions,
            envCharacters, envScenes, transcriptionFails, visualFails,
            exceptErr, hfr, ha, hn, hv]
      | error ev =>
        have hstore : pipelineAfterDownload env jid job title duration st =
            (updateJobStatus jid .complete env.now
              (updateJobStage jid .assembly .complete
                (setJobScript jid
                  (match env.assemblyR with
                   | .ok s => s
                   | .error _ =>
                     formatBasicScript
                       ⟨title, duration, jsOrElse job.videoUrl "File upload", job.platform, [], [], false, true⟩
                       env.today)
                  (updateJobStage jid .assembly .in_progress
                    (setJobVisualAnalysis jid ⟨[], [], []⟩
                      (setJobTranscription jid ⟨[], []⟩
                        (setJobStageError jid "visual" ev
                (updateJobStage jid .visual .error
                  (updateJobStage jid .transcription .skipped
                  (updateJobStage jid .visual .in_progress
                    (updateJobStage jid .transcription .in_progress
                      (setJobMetadata jid ⟨title, duration, job.videoUrl⟩ st))))))))))),
             none) := by
          simp [pipelineAfterDownload, hfr, ha, hn, hv]
        rw [hstore]
        refine ⟨rfl, ?_, ?_⟩
        · repeat
            first
            | apply wellFormed_updateJobStatus
            | apply wellFormed_updateJobStage
            | apply wellFormed_setJobScript
            | apply wellFormed_setJobVisualAnalysis
            | apply wellFormed_setJobTranscription
            | apply wellFormed_setJobStageError
            | apply wellFormed_setJobMetadata
          exact hwf
        · simp only [getJob_updateJobStatus_self, getJob_updateJobStage_self,
            getJob_setJobScript_self, getJob_setJobVisualAnalysis_self,
            getJob_setJobTranscription_self, getJob_setJobStageError_self,
            getJob_setJobMetadata_self, hj, Option.map_some']
          refine ⟨_, rfl, ?_⟩
          simp [Stages.set, envScript, envDialogue, envSpeakers, envActions,
            envCharacters, envScenes, transcriptionFails, visualFails,
            exceptErr, hfr, ha, hn, hv]
    ·
      have hstore : pipelineAfterDownload env jid job title duration st =
          (updateJobStatus jid .complete env.now
            (updateJobStage jid .assembly .complete
              (setJobScript jid
                (match env.assemblyR with
                 | .ok s => s
                 | .error _ =>
                   formatBasicScript
                     ⟨title, duration, jsOrElse job.videoUrl "File upload", job.platform, [], [], false, false⟩
                     env.today)
                (updateJobStage jid .assembly .in_progress
                  (setJobVisualAnalysis jid ⟨[], [], []⟩
                    (setJobTranscription jid ⟨[], []⟩
                      (updateJobStage jid .visual .skipped
              (updateJobStage jid .transcription .skipped
                (updateJobStage jid .visual .in_progress
                  (updateJobStage jid .transcription .in_progress
                    (setJobMetadata jid ⟨title, duration, job.videoUrl⟩ st)))))))))),
           none) := by
        simp [pipelineAfterDownload, hfr, ha, hn]
      rw [hstore]
      refine ⟨rfl, ?_, ?_⟩
      · repeat
          first
          | apply wellFormed_updateJobStatus
          | apply wellFormed_updateJobStage
          | apply wellFormed_setJobScript
          | apply wellFormed_setJobVisualAnalysis
          | apply wellFormed_setJobTranscription
          | apply wellFormed_setJobStageError
          | apply wellFormed_setJobMetadata
        exact hwf
      · simp only [getJob_updateJobStatus_self, getJob_updateJobStage_self,
          getJob_setJobScript_self, getJob_setJobVisualAnalysis_self,
          getJob_setJobTranscription_self, getJob_setJobStageError_self,
          getJob_setJobMetadata_self, hj, Option.map_some']
        refine ⟨_, rfl, ?_⟩
        simp [Stages.set, envScript, envDialogue, envSpeakers, envActions,
          envCharacters, envScenes, transcriptionFails, visualFails,
          exceptErr, hfr, ha, hn]

theorem transcriptionFails_elim (env : Env)
    (h : transcriptionFails env = true) :
    env.audio.hasAudio = true ∧ ∃ e, env.transcriptionR = .error e := by
  unfold transcriptionFails at h
  rw [Bool.and_eq_true] at h
  refine ⟨h.1, ?_⟩
  cases hx : env.transcriptionR with
  | error e => exact ⟨e, rfl⟩
  | ok r =>
    rw [hx] at h
    simp [exceptErr] at h

theorem visualFails_elim (env : Env) (n : Nat) (hfr : env.framesR = .ok n)
    (h : visualFails env = true) :
    0 < n ∧ ∃ e, env.visualR = .error e := by
  unfold visualFails at h
  rw [hfr] at h
  rw [Bool.and_eq_true] at h
  refine ⟨by simpa using h.1, ?_⟩
  cases hx : env.visualR with
  | error e => exact ⟨e, rfl⟩
  | ok r =>
    rw [hx] at h
    simp [exceptErr] at h

/-- Stage 1 of `processJob`: when a video is available (upload, or URL and
a successful download), the `try` body continues into the post-download
pipeline on a store that differs from `st` only in the job's download
stage. -/
theorem pipelineTry_reaches (env : Env) (jid : String) (job : Job)
    (st : Store) (jcur : Job) (hwf : WellFormed st)
    (hj : getJob jid st = some jcur) (hav : VideoAvailable env job) :
    ∃ title duration st1 jcur1,
      pipelineTry env jid job st =
        pipelineAfterDownload env jid job title duration st1 ∧
      WellFormed st1 ∧
      getJob jid st1 = some jcur1 ∧
      jcur1.jobId = jcur.jobId ∧
      jcur1.status = jcur.status ∧
      jcur1.error = jcur.error ∧
      jcur1.script = jcur.script ∧
      jcur1.stages.assembly = jcur.stages.assembly := by
  rcases hav with hfp | ⟨hfp, hurl, hdl⟩
  · rcases Option.isSome_iff_exists.mp hfp with ⟨fp, hfp'⟩
    refine ⟨"Untitled", env.probedDuration,
      updateJobStage jid .download .skipped st, _,
      by simp [pipelineTry, hfp'], wellFormed_updateJobStage _ _ _ _ hwf,
      by rw [getJob_updateJobStage_self, hj, Option.map_some'], ?_, ?_, ?_,
      ?_, ?_⟩ <;> simp [Stages.set]
  · rcases Option.isSome_iff_exists.mp hurl with ⟨u, hu⟩
    cases hd : env.download with
    | error e =>
      rw [hd] at hdl
      simp [exceptErr] at hdl
    | ok d =>
      refine ⟨d.title, d.duration,
        updateJobStage jid .download .complete
          (updateJobStage jid .download .in_progress st), _,
        by simp [pipelineTry, hfp, hu, hd],
        wellFormed_updateJobStage _ _ _ _
          (wellFormed_updateJobStage _ _ _ _ hwf),
        by rw [getJob_updateJobStage_self, getJob_updateJobStage_self, hj,
          Option.map_some', Option.map_some'], ?_, ?_, ?_, ?_, ?_⟩ <;>
        simp [Stages.set]

theorem joinLines_length (l : String) (ls : List String) :
    l.length ≤ (joinLines (l :: ls)).length := by
  cases ls with
  | nil => simp [joinLines]
  | cons m ms =>
    simp only [joinLines, String.length_append]
    omega

/-- The fallback formatter is total and always emits a non-empty script
(its first line starts with the literal `TITLE: `). -/
theorem formatBasicScript_ne_empty (inp : BasicScriptInput)
    (today : String) : formatBasicScript inp today ≠ "" := by
  have h : ∃ ls, formatBasicScript inp today =
      joinLines (("TITLE: " ++ inp.title) :: ls) := ⟨_, rfl⟩
  rcases h with ⟨ls, heq⟩
  rw [heq]
  intro hembed
  have hlen := joinLines_length ("TITLE: " ++ inp.title) ls
  rw [hembed] at hlen
  have h7 : ("TITLE: " ++ inp.title).length = 7 + inp.title.length := by
    rw [String.length_append]
    norm_num [show "TITLE: ".length = 7 from by decide]
  have h0 : ("" : String).length = 0 := rfl
  omega

/-- **C4**: if transcription and visual analysis both end in `error`
(neither skipped), `processJob` aborts: the job's final status is `error`
with the top-level record tagged `stage := "pipeline"`, and the assembly
stage is left untouched (never attempted).  If only one of the two failed
(the other succeeded or was skipped), processing continues: assembly runs,
the job completes with the partial transcription/visual data recorded. -/
theorem joint_failure_policy (C : Nat) (cbSet : Bool) (env : Env)
    (jid : String) (st : Store) (job : Job) (n : Nat)
    (hwf : WellFormed st) (hj : getJob jid st = some job)
    (hav : VideoAvailable env job) (hfr : env.framesR = .ok n) :
    (transcriptionFails env = true → visualFails env = true →
      ∃ j', getJob jid (processJob C cbSet env jid st).1 = some j' ∧
        j'.status = .error ∧
        j'.error = some ⟨"pipeline",
          "Both transcription and visual analysis failed",
          "Something went wrong while analyzing this video."⟩ ∧
        j'.stages.assembly = job.stages.assembly) ∧
    ((transcriptionFails env = true ∧ visualFails env = false) ∨
     (transcriptionFails env = false ∧ visualFails env = true) →
      ∃ j', getJob jid (processJob C cbSet env jid st).1 = some j' ∧
        j'.status = .complete ∧
        j'.stages.assembly = .complete ∧
        (∃ s, j'.script = some s) ∧
        j'.transcription = some ⟨envDialogue env, envSpeakers env⟩ ∧
        j'.visualAnalysis =
          some ⟨envActions env, envCharacters env, envScenes env⟩) := by
  obtain ⟨title, dur, st1, jcur1, heq, hwf1, hj1, hid1, hstat1, herr1,
    hscr1, hasm1⟩ := pipelineTry_reaches env jid job st job hwf hj hav
  constructor
  · intro hT hV
    obtain ⟨ha, et, ht⟩ := transcriptionFails_elim env hT
    obtain ⟨hn, ev, hv⟩ := visualFails_elim env n hfr hV
    obtain ⟨hpad2, hpadwf, j', hgetj', hjid', hstatj', herrj', hscrj',
      hasmj'⟩ :=
      pad_bothFail env jid job title dur st1 n et ev jcur1 hwf1 hfr hn ha ht
        hv hj1
    have hred : (processJob C cbSet env jid st).1 =
        (onJobComplete C cbSet env.now
          (setJobError jid
            ⟨"pipeline", "Both transcription and visual analysis failed",
              "Something went wrong while analyzing this video."⟩ env.now
            (pipelineAfterDownload env jid job title dur st1).1)).1 := by
      simp only [processJob, hj, heq, hpad2]
    have hget2 : getJob jid
        (setJobError jid
          ⟨"pipeline", "Both transcription and visual analysis failed",
            "Something went wrong while analyzing this video."⟩ env.now
          (pipelineAfterDownload env jid job title dur st1).1) =
        some { j' with
          error := some ⟨"pipeline",
            "Both transcription and visual analysis failed",
            "Something went wrong while analyzing this video."⟩,
          status := .error, completedAt := some env.now } := by
      rw [getJob_setJobError_self, hgetj', Option.map_some']
    have hwf2 := wellFormed_setJobError jid
      ⟨"pipeline", "Both transcription and visual analysis failed",
        "Something went wrong while analyzing this video."⟩ env.now _ hpadwf
    have hpres := getJob_tryStartNext_preserved C cbSet env.now _ jid _ hwf2
      hget2 (by simp)
    refine ⟨{ j' with
        error := some ⟨"pipeline",
          "Both transcription and visual analysis failed",
          "Something went wrong while analyzing this video."⟩,
        status := .error, completedAt := some env.now }, ?_, rfl, rfl, ?_⟩
    · rw [hred]
      simp only [onJobComplete] at hpres ⊢
      exact hpres
    · show j'.stages.assembly = job.stages.assembly
      rw [hasmj', hasm1]
  · intro hone
    have hnb : ¬ (transcriptionFails env = true ∧ visualFails env = true) := by
      rcases hone with ⟨h1, h2⟩ | ⟨h1, h2⟩ <;>
        (rintro ⟨a, b⟩; simp_all)
    obtain ⟨hpad2, hpadwf, j', hgetj', hjid', hstatj', hasmstagej',
      hcomplj', hscriptj', htransj', hvisj'⟩ :=
      pad_success env jid job title dur st1 n jcur1 hwf1 hfr hnb hj1
    have hred : (processJob C cbSet env jid st).1 =
        (onJobComplete C cbSet env.now
          (pipelineAfterDownload env jid job title dur st1).1).1 := by
      simp only [processJob, hj, heq, hpad2]
    have hpres := getJob_tryStartNext_preserved C cbSet env.now _ jid j'
      hpadwf hgetj' (by rw [hstatj']; simp)
    refine ⟨j', ?_, hstatj', hasmstagej', ⟨_, hscriptj'⟩, htransj', hvisj'⟩
    rw [hred]
    simp only [onJobComplete] at hpres ⊢
    exact hpres

/-- **C5**: for a job that reaches assembly (video available, not a joint
transcription+visual failure), a throwing `assembleScript` is caught and
replaced by `formatBasicScript`: the job still ends with assembly stage
`complete`, status `complete`, and a non-empty script — never status
`error`.  The fallback formatter itself is total and never returns an
empty script. -/
theorem assembly_failure_falls_back (C : Nat) (cbSet : Bool) (env : Env)
    (jid : String) (st : Store) (job : Job) (n : Nat) (msg : String)
    (hwf : WellFormed st) (hj : getJob jid st = some job)
    (hav : VideoAvailable env job) (hfr : env.framesR = .ok n)
    (hnb : ¬ (transcriptionFails env = true ∧ visualFails env = true))
    (hasm : env.assemblyR = .error msg) :
    (∃ title duration j',
      getJob jid (processJob C cbSet env jid st).1 = some j' ∧
      j'.status = .complete ∧
      j'.stages.assembly = .complete ∧
      j'.script = some (formatBasicScript
        ⟨title, duration, jsOrElse job.videoUrl "File upload", job.platform,
          envDialogue env, envActions env, transcriptionFails env,
          visualFails env⟩ env.today) ∧
      formatBasicScript
        ⟨title, duration, jsOrElse job.videoUrl "File upload", job.platform,
          envDialogue env, envActions env, transcriptionFails env,
          visualFails env⟩ env.today ≠ "") ∧
    (∀ (inp : BasicScriptInput) (t : String),
      formatBasicScript inp t ≠ "") := by
  obtain ⟨title, dur, st1, jcur1, heq, hwf1, hj1, hid1, hstat1, herr1,
    hscr1, hasm1⟩ := pipelineTry_reaches env jid job st job hwf hj hav
  obtain ⟨hpad2, hpadwf, j', hgetj', hjid', hstatj', hasmstagej',
    hcomplj', hscriptj', htransj', hvisj'⟩ :=
    pad_success env jid job title dur st1 n jcur1 hwf1 hfr hnb hj1
  have hred : (processJob C cbSet env jid st).1 =
      (onJobComplete C cbSet env.now
        (pipelineAfterDownload env jid job title dur st1).1).1 := by
    simp only [processJob, hj, heq, hpad2]
  have hpres := getJob_tryStartNext_preserved C cbSet env.now _ jid j'
    hpadwf hgetj' (by rw [hstatj']; simp)
  have hfb : envScript env job title dur =
      formatBasicScript
        ⟨title, dur, jsOrElse job.videoUrl "File upload", job.platform,
          envDialogue env, envActions env, transcriptionFails env,
          visualFails env⟩ env.today := by
    simp [envScript, hasm]
  refine ⟨⟨title, dur, j', ?_, hstatj', hasmstagej', ?_, ?_⟩,
    formatBasicScript_ne_empty⟩
  · rw [hred]
    simp only [onJobComplete] at hpres ⊢
    exact hpres
  · rw [hscriptj', hfb]
  · exact formatBasicScript_ne_empty _ _

theorem joint_failure_policy_witness :
    ∃ j', getJob "job-a" (processJob 2 true envBothFail "job-a" stA).1 =
        some j' ∧
      j'.status = .error ∧
      j'.error = some ⟨"pipeline",
        "Both transcription and visual analysis failed",
        "Something went wrong while analyzing this video."⟩ ∧
      j'.stages.assembly = jobA.stages.assembly :=
  (joint_failure_policy 2 true envBothFail "job-a" stA jobA 3 (by decide)
    (by decide) (by unfold VideoAvailable; decide) rfl).1
    (by decide) (by decide)

theorem assembly_failure_falls_back_witness :
    ∃ title duration j',
      getJob "job-a" (processJob 2 true envAsmFail "job-a" stA).1 =
        some j' ∧
      j'.status = .complete ∧
      j'.stages.assembly = .complete ∧
      j'.script = some (formatBasicScript
        ⟨title, duration, jsOrElse jobA.videoUrl "File upload",
          jobA.platform, envDialogue envAsmFail, envActions envAsmFail,
          transcriptionFails envAsmFail, visualFails envAsmFail⟩
        envAsmFail.today) ∧
      formatBasicScript
        ⟨title, duration, jsOrElse jobA.videoUrl "File upload",
          jobA.platform, envDialogue envAsmFail, envActions envAsmFail,
          transcriptionFails envAsmFail, visualFails envAsmFail⟩
        envAsmFail.today ≠ "" :=
  (assembly_failure_falls_back 2 true envAsmFail "job-a" stA jobA 3
    "assembly boom" (by decide) (by decide)
    (by unfold VideoAvailable; decide) rfl (by decide) rfl).1

end FrameReader